import Mathlib

/-!
# Ray tracing kernel: materials, the `ray_color` integrator and the engine

A shallow embedding of `src/material.hpp` and of `hit_sphere`, `ray_color` and the
methods of `Engine` in `src/engine.cpp`.

Conventions of the embedding:

* The definitions are written once, over any type `K` that carries the arithmetic
  operations and the comparisons of a C++ `double`; `sqrt` is passed explicitly as a
  function `K → K`, so every definition is computable once `K` and `sqrt` are.
* The type `binary64` carries the rounded arithmetic of IEEE-754 doubles, with its
  infinities and its not-a-number; evaluating a definition at `K := binary64` follows
  the compiled code operation by operation.
* General theorems are stated over a linearly ordered field `K`, where no operation
  rounds. Theorems that need the square root to be the real one assume `IsSqrt sqrt`.
* The process-wide pseudo random generator is an explicit state of type `G`, threaded
  through every call that may draw from it.
* A `bool`-returning function with output parameters returns a record of the flag
  and of the values left in the output parameters.
-/

set_option autoImplicit false
set_option linter.unusedSectionVars false
set_option linter.unusedVariables false
set_option maxRecDepth 100000

namespace RayTracing

/-! ## The type `double` -/

/-- A value of the type `double` of the code: an IEEE-754 `binary64` number. A finite
value is `m * 2^e` with `m` odd (or `m = 0`, `e = 0`); zeros carry no sign. -/
inductive binary64 where
  | finite (m : Int) (e : Int)
  | pinf
  | ninf
  | nan
  deriving DecidableEq

namespace binary64

/-- The number of binary digits of a natural number (the first argument bounds the
number of steps). -/
def bitLength : Nat → Nat → Nat
  | 0, _ => 0
  | fuel + 1, n => if n = 0 then 0 else bitLength fuel (n / 2) + 1

/-- Removes the trailing zero bits of a mantissa. -/
def strip : Nat → Int → Int → binary64
  | 0, m, e => finite m e
  | fuel + 1, m, e => if m % 2 = 0 then strip fuel (m / 2) (e + 1) else finite m e

/-- The finite value `m * 2^e` in its normal form. -/
def normalize (m e : Int) : binary64 :=
  if m = 0 then finite 0 0 else strip 4096 m e

/-- The value `± a * 2^e` of at most 53 significant bits, or an infinity when it
exceeds the largest finite `binary64` number. -/
def signed (neg : Bool) (a : Nat) (e : Int) : binary64 :=
  if bitLength 4096 a + e > 1024 then (if neg then ninf else pinf)
  else normalize (if neg then -(a : Int) else (a : Int)) e

/-- Rounding of the exact value `m * 2^e` to `binary64`: to nearest, ties to even, with
gradual underflow below `2^-1022` and overflow to an infinity. -/
def round (m e : Int) : binary64 :=
  let a := m.natAbs
  let shift : Int := max ((bitLength 4096 a : Int) - 53) (-1074 - e)
  if shift ≤ 0 then signed (decide (m < 0)) a e
  else
    let s := shift.toNat
    let q := a / 2 ^ s
    let r := a % 2 ^ s
    let half := 2 ^ (s - 1)
    let q1 := if r > half ∨ (r = half ∧ q % 2 = 1) then q + 1 else q
    signed (decide (m < 0)) q1 (e + shift)

/-- Addition of `binary64`. -/
def add : binary64 → binary64 → binary64
  | nan, _ => nan
  | _, nan => nan
  | pinf, ninf => nan
  | ninf, pinf => nan
  | pinf, _ => pinf
  | _, pinf => pinf
  | ninf, _ => ninf
  | _, ninf => ninf
  | finite m1 e1, finite m2 e2 =>
    round (m1 * 2 ^ (e1 - min e1 e2).toNat + m2 * 2 ^ (e2 - min e1 e2).toNat) (min e1 e2)

/-- Negation of `binary64`. -/
def neg : binary64 → binary64
  | nan => nan
  | pinf => ninf
  | ninf => pinf
  | finite m e => finite (-m) e

/-- Multiplication of `binary64`. -/
def mul : binary64 → binary64 → binary64
  | nan, _ => nan
  | _, nan => nan
  | pinf, finite m _ => if m = 0 then nan else if m < 0 then ninf else pinf
  | ninf, finite m _ => if m = 0 then nan else if m < 0 then pinf else ninf
  | finite m _, pinf => if m = 0 then nan else if m < 0 then ninf else pinf
  | finite m _, ninf => if m = 0 then nan else if m < 0 then pinf else ninf
  | pinf, pinf => pinf
  | ninf, ninf => pinf
  | pinf, ninf => ninf
  | ninf, pinf => ninf
  | finite m1 e1, finite m2 e2 => round (m1 * m2) (e1 + e2)

/-- Division of `binary64`; the quotient is computed with a sticky bit below 64 extra
bits, so that the rounding is the one of the exact quotient. -/
def div : binary64 → binary64 → binary64
  | nan, _ => nan
  | _, nan => nan
  | pinf, finite m _ => if m < 0 then ninf else pinf
  | ninf, finite m _ => if m < 0 then pinf else ninf
  | finite _ _, pinf => finite 0 0
  | finite _ _, ninf => finite 0 0
  | pinf, pinf => nan
  | ninf, ninf => nan
  | pinf, ninf => nan
  | ninf, pinf => nan
  | finite m1 e1, finite m2 e2 =>
    if m2 = 0 then (if m1 = 0 then nan else if m1 < 0 then ninf else pinf)
    else
      let k := bitLength 4096 m2.natAbs + 64
      let n := m1.natAbs * 2 ^ k
      let q := n / m2.natAbs
      let r := n % m2.natAbs
      let m := 2 * q + (if r = 0 then 0 else 1)
      round (if decide (m1 < 0) != decide (m2 < 0) then -(m : Int) else (m : Int))
        (e1 - e2 - k - 1)

/-- The integer square root, bit by bit from the top. -/
def isqrt : Nat → Nat → Nat → Nat
  | 0, _, r => r
  | b + 1, n, r => if (r + 2 ^ b) * (r + 2 ^ b) ≤ n then isqrt b n (r + 2 ^ b) else isqrt b n r

/-- The function `sqrt` of `<cmath>` on `binary64`, correctly rounded. -/
def sqrt : binary64 → binary64
  | nan => nan
  | pinf => pinf
  | ninf => nan
  | finite m e =>
    if m < 0 then nan
    else if m = 0 then finite 0 0
    else
      let n := if e % 2 = 0 then m.natAbs * 2 ^ 120 else m.natAbs * 2 ^ 121
      let e1 := if e % 2 = 0 then e - 120 else e - 121
      let s := isqrt (bitLength 4096 n / 2 + 1) n 0
      let m1 := 2 * s + (if s * s = n then 0 else 1)
      round (m1 : Int) (e1 / 2 - 1)

/-- The comparison `a < b` of `binary64`, false when an operand is not a number. -/
def lt : binary64 → binary64 → Bool
  | nan, _ => false
  | _, nan => false
  | pinf, _ => false
  | _, ninf => false
  | ninf, _ => true
  | _, pinf => true
  | finite m1 e1, finite m2 e2 =>
    decide (m1 * 2 ^ (e1 - min e1 e2).toNat < m2 * 2 ^ (e2 - min e1 e2).toNat)

/-- The comparison `a <= b` of `binary64`, false when an operand is not a number. -/
def le : binary64 → binary64 → Bool
  | nan, _ => false
  | _, nan => false
  | ninf, _ => true
  | _, pinf => true
  | pinf, _ => false
  | _, ninf => false
  | finite m1 e1, finite m2 e2 =>
    decide (m1 * 2 ^ (e1 - min e1 e2).toNat ≤ m2 * 2 ^ (e2 - min e1 e2).toNat)

/-- The function `fmin` of `<cmath>`: the smaller operand, and the other operand when
one is not a number. -/
def fmin (a b : binary64) : binary64 :=
  match a, b with
  | nan, _ => b
  | _, nan => a
  | _, _ => if lt b a then b else a

/-- The function `pow` of `<cmath>` with a natural exponent, correctly rounded. -/
def pow : binary64 → Nat → binary64
  | _, 0 => finite 1 0
  | nan, _ => nan
  | pinf, _ => pinf
  | ninf, n => if n % 2 = 0 then pinf else ninf
  | finite m e, n => round (m ^ n) (e * n)

instance : Zero binary64 := ⟨finite 0 0⟩

instance : One binary64 := ⟨finite 1 0⟩

instance : NatCast binary64 := ⟨fun n => round n 0⟩

instance : IntCast binary64 := ⟨fun n => round n 0⟩

instance : Add binary64 := ⟨add⟩

instance : Neg binary64 := ⟨neg⟩

instance : Sub binary64 := ⟨fun a b => add a (neg b)⟩

instance : Mul binary64 := ⟨mul⟩

instance : Div binary64 := ⟨div⟩

instance : Pow binary64 Nat := ⟨pow⟩

instance : LT binary64 := ⟨fun a b => lt a b = true⟩

instance : LE binary64 := ⟨fun a b => le a b = true⟩

instance : Min binary64 := ⟨fmin⟩

instance : DecidableRel (fun a b : binary64 => a < b) :=
  fun a b => inferInstanceAs (Decidable (lt a b = true))

instance : DecidableRel (fun a b : binary64 => a ≤ b) :=
  fun a b => inferInstanceAs (Decidable (le a b = true))

end binary64

section arithmetic_generic

variable {K : Type} [Zero K] [One K] [NatCast K] [Add K] [Sub K] [Mul K] [Div K] [Neg K]
  [Pow K Nat] [LT K] [LE K] [Min K] [DecidableRel (fun a b : K => a < b)] {G : Type}

/-! ## Vectors, rays, hit records -/

/-- Modelled from the spec: `vec3.hpp` is not among the sources. A `vec3` has three
real-valued components, used as a point, a direction or an RGB colour. -/
@[ext]
structure vec3 (K : Type) where
  x : K
  y : K
  z : K

/-- Modelled from the spec: the alias `color` of `vec3.hpp`; `color r g b` is the
constructor call `color(r, g, b)`. -/
def color (r g b : K) : vec3 K := ⟨r, g, b⟩

namespace vec3

/-- Modelled from the spec: `operator+` of `vec3.hpp` (componentwise sum). -/
instance : Add (vec3 K) := ⟨fun u v => ⟨u.x + v.x, u.y + v.y, u.z + v.z⟩⟩

/-- Modelled from the spec: `operator-` of `vec3.hpp` (componentwise difference). -/
instance : Sub (vec3 K) := ⟨fun u v => ⟨u.x - v.x, u.y - v.y, u.z - v.z⟩⟩

/-- Modelled from the spec: unary `operator-` of `vec3.hpp`. -/
instance : Neg (vec3 K) := ⟨fun v => ⟨-v.x, -v.y, -v.z⟩⟩

/-- Modelled from the spec: `operator*(vec3, vec3)` of `vec3.hpp`, the componentwise
product used for colour attenuation. -/
instance : Mul (vec3 K) := ⟨fun u v => ⟨u.x * v.x, u.y * v.y, u.z * v.z⟩⟩

/-- Modelled from the spec: `operator*(double, vec3)` of `vec3.hpp`, written `t • v`. -/
instance : SMul K (vec3 K) := ⟨fun t v => ⟨t * v.x, t * v.y, t * v.z⟩⟩

/-- Modelled from the spec: `operator/(vec3, double)` of `vec3.hpp`, scaling by `1/t`. -/
def div (v : vec3 K) (t : K) : vec3 K := (1 / t) • v

/-- Modelled from the spec: `vec3::length_squared` of `vec3.hpp`. -/
def length_squared (v : vec3 K) : K := v.x * v.x + v.y * v.y + v.z * v.z

/-- Modelled from the spec: `vec3::length` of `vec3.hpp`, the square root of
`length_squared`. -/
def length (sqrt : K → K) (v : vec3 K) : K := sqrt v.length_squared

end vec3

/-- Modelled from the spec: `fabs` of `<cmath>`, used by the helpers of `vec3.hpp`. -/
def fabs (x : K) : K := if x < 0 then -x else x

/-- Modelled from the spec: `dot` of `vec3.hpp`. -/
def dot (u v : vec3 K) : K := u.x * v.x + u.y * v.y + u.z * v.z

/-- Modelled from the spec: `unit_vector` of `vec3.hpp`, "divide by length; caller
must ensure non-zero length". -/
def unit_vector (sqrt : K → K) (v : vec3 K) : vec3 K := v.div (v.length sqrt)

/-- Modelled from the spec: `reflect` of `vec3.hpp`, `v - 2*dot(v,n)*n`. -/
def reflect (v n : vec3 K) : vec3 K := v - (2 * dot v n) • n

/-- Modelled from the spec: `refract` of `vec3.hpp`, Snell's law in vector form: the
perpendicular and the parallel refracted components are computed from `cos_theta`
(clamped to at most 1) and the ratio of the refraction indices. -/
def refract (sqrt : K → K) (uv n : vec3 K) (etai_over_etat : K) : vec3 K :=
  let cos_theta := min (dot (-uv) n) 1
  let r_out_perp := etai_over_etat • (uv + cos_theta • n)
  let r_out_parallel := (-(sqrt (fabs (1 - r_out_perp.length_squared)))) • n
  r_out_perp + r_out_parallel

/-- Modelled from the spec: `ray.hpp` is not among the sources. A ray is an origin,
a direction and a time; `origin()`, `direction()` and `time()` read the fields. -/
structure ray (K : Type) where
  origin : vec3 K
  direction : vec3 K
  time : K

/-! ## Materials (`material.hpp`) -/

/-- Fields of `class lambertian`. -/
structure lambertian (K : Type) where
  albedo : vec3 K

/-- Fields of `class metal`. -/
structure metal (K : Type) where
  albedo : vec3 K
  fuzz : K

/-- Fields of `class dielectric`. -/
structure dielectric (K : Type) where
  ir : K

/-- The three classes deriving from `class material`; a `shared_ptr<material>` points
to one of them and a virtual call dispatches on the variant. -/
inductive material (K : Type) where
  | lambertian (m : RayTracing.lambertian K)
  | metal (m : RayTracing.metal K)
  | dielectric (m : RayTracing.dielectric K)

/-- Modelled from the spec: `struct hit_record` is only forward declared in the
sources; its fields are the ones the spec lists and the code reads. -/
structure hit_record (K : Type) where
  p : vec3 K
  normal : vec3 K
  mat_ptr : material K
  t : K
  front_face : Bool

/-- Modelled from the spec: the random helpers of `rt.hpp` and `vec3.hpp` are not
among the sources. Each one reads the generator state and returns the drawn value
with the advanced state. -/
structure random_source (K G : Type) where
  random_double : G → K × G
  random_in_unit_sphere : G → vec3 K × G
  random_unit_vector : G → vec3 K × G

/-- Modelled from the spec: `vec3::near_zero` of `vec3.hpp`, true when every component
is below the fixed epsilon `1e-8` in absolute value. -/
def vec3.near_zero (v : vec3 K) : Bool :=
  decide (fabs v.x < 1 / 100000000) && decide (fabs v.y < 1 / 100000000)
    && decide (fabs v.z < 1 / 100000000)

/-- What a call of `scatter` leaves behind: the returned flag and the two output
parameters. -/
structure scatter_result (K : Type) where
  scattered_ok : Bool
  attenuation : vec3 K
  scattered : ray K

/-- The constructor `metal(const color& a, double f)`. -/
def metal.new (a : vec3 K) (f : K) : metal K :=
  ⟨a, if f < 1 then f else 1⟩

/-- The method `lambertian::scatter`. -/
def lambertian.scatter (rs : random_source K G) (self : lambertian K)
    (r_in : ray K) (rec : hit_record K) (g : G) : scatter_result K × G :=
  let (w, g1) := rs.random_unit_vector g
  let scatter_direction := rec.normal + w
  let scatter_direction :=
    if scatter_direction.near_zero then rec.normal else scatter_direction
  (⟨true, self.albedo, ⟨rec.p, scatter_direction, r_in.time⟩⟩, g1)

/-- The method `metal::scatter`. -/
def metal.scatter (sqrt : K → K) (rs : random_source K G) (self : metal K)
    (r_in : ray K) (rec : hit_record K) (g : G) : scatter_result K × G :=
  let reflected := reflect (unit_vector sqrt r_in.direction) rec.normal
  let (p, g1) := rs.random_in_unit_sphere g
  let scattered : ray K := ⟨rec.p, reflected + self.fuzz • p, r_in.time⟩
  (⟨decide (dot scattered.direction rec.normal > 0), self.albedo, scattered⟩, g1)

/-- The private static method `dielectric::reflectance` (Schlick's approximation). -/
def dielectric.reflectance (cosine ref_idx : K) : K :=
  let r0 := (1 - ref_idx) / (1 + ref_idx)
  let r0 := r0 * r0
  r0 + (1 - r0) * (1 - cosine) ^ 5

/-- The method `dielectric::scatter`. The operator `||` short-circuits, so the uniform
number is drawn only when `cannot_refract` is false. -/
def dielectric.scatter (sqrt : K → K) (rs : random_source K G) (self : dielectric K)
    (r_in : ray K) (rec : hit_record K) (g : G) : scatter_result K × G :=
  let attenuation := color (1 : K) 1 1
  let refraction_ratio := if rec.front_face then 1 / self.ir else self.ir
  let unit_direction := unit_vector sqrt r_in.direction
  let cos_theta := min (dot (-unit_direction) rec.normal) 1
  let sin_theta := sqrt (1 - cos_theta * cos_theta)
  let cannot_refract : Bool := decide (refraction_ratio * sin_theta > 1)
  if cannot_refract then
    (⟨true, attenuation, ⟨rec.p, reflect unit_direction rec.normal, r_in.time⟩⟩, g)
  else
    let (x, g1) := rs.random_double g
    if dielectric.reflectance cos_theta refraction_ratio > x then
      (⟨true, attenuation, ⟨rec.p, reflect unit_direction rec.normal, r_in.time⟩⟩, g1)
    else
      (⟨true, attenuation,
        ⟨rec.p, refract sqrt unit_direction rec.normal refraction_ratio, r_in.time⟩⟩, g1)

/-- The virtual call `mat_ptr->scatter(r_in, rec, attenuation, scattered)`. -/
def material.scatter (sqrt : K → K) (rs : random_source K G) (self : material K)
    (r_in : ray K) (rec : hit_record K) (g : G) : scatter_result K × G :=
  match self with
  | .lambertian m => m.scatter rs r_in rec g
  | .metal m => m.scatter sqrt rs r_in rec g
  | .dielectric m => m.scatter sqrt rs r_in rec g

/-! ## The integrator (`engine.cpp`) -/

/-- Modelled from the spec: `hittable.hpp` is not among the sources. A hittable answers
`hit(ray, t_min, t_max)` with the nearest hit record or with none; the upper end of
the interval may be `infinity`, written `⊤`. The query runs in the same process as
the generator, so it receives and returns the generator state. -/
structure hittable (K G : Type) where
  hit : ray K → K → WithTop K → G → Option (hit_record K) × G

/-- The function `ray_color` of `engine.cpp`. -/
def ray_color (sqrt : K → K) (rs : random_source K G) (r : ray K) (world : hittable K G)
    (depth : Int) (g : G) : vec3 K × G :=
  if depth ≤ 0 then (color 0 0 0, g)
  else
    match world.hit r (1 / 1000) ⊤ g with
    | (some rec, g1) =>
      match rec.mat_ptr.scatter sqrt rs r rec g1 with
      | (res, g2) =>
        if res.scattered_ok then
          match ray_color sqrt rs res.scattered world (depth - 1) g2 with
          | (c, g3) => (res.attenuation * c, g3)
        else (color 0 0 0, g2)
    | (none, g1) =>
      let unit_direction := unit_vector sqrt r.direction
      let t := (1 / 2) * (unit_direction.y + 1)
      ((1 - t) • color 1 1 1 + t • color (1 / 2) (7 / 10) 1, g1)
termination_by depth.toNat
decreasing_by omega

/-! ## Materials from XML (`material.hpp`, on top of tinyxml2) -/

/-- Modelled from the spec: `tinyxml2.h` is not among the sources. An element is a
named tag with attributes and child elements; an attribute value is the number that
`DoubleAttribute` reads from it. -/
inductive XMLElement (K : Type) where
  | mk (name : String) (attributes : List (String × K)) (children : List (XMLElement K))

namespace XMLElement

/-- Modelled from the spec: `XMLElement::Name` of tinyxml2. -/
def Name : XMLElement K → String
  | mk n _ _ => n

/-- Modelled from the spec: the attribute list of a tinyxml2 element. -/
def attributes : XMLElement K → List (String × K)
  | mk _ a _ => a

/-- Modelled from the spec: the child elements of a tinyxml2 element, in order. -/
def children : XMLElement K → List (XMLElement K)
  | mk _ _ c => c

/-- Modelled from the spec: `XMLElement::DoubleAttribute` of tinyxml2, the value of
the named attribute, or the default `0` when the element has no such attribute. -/
def DoubleAttribute (e : XMLElement K) (name : String) : K :=
  match e.attributes.find? (fun a => a.1 == name) with
  | some a => a.2
  | none => 0

/-- Modelled from the spec: `XMLNode::FirstChildElement()` of tinyxml2 without a name,
the first child element, or a null pointer (`none`) when there is none. -/
def FirstChildElement (e : XMLElement K) : Option (XMLElement K) :=
  e.children.head?

/-- Modelled from the spec: `XMLNode::FirstChildElement(name)` of tinyxml2, the first
child element with that tag name, or a null pointer (`none`) when there is none. -/
def FirstChildElementNamed (e : XMLElement K) (name : String) : Option (XMLElement K) :=
  e.children.find? (fun c => c.Name == name)

end XMLElement

/-- How building a material from XML can fail: the exception `std::invalid_argument`
with its message, or the dereference of a null element pointer. -/
inductive load_error where
  | invalid_argument (what : String)
  | null_dereference
  deriving DecidableEq

/-- The constructor `lambertian(tinyxml2::XMLElement*)`. -/
def lambertian.from_xml (pElement : XMLElement K) : Except load_error (lambertian K) :=
  match pElement.FirstChildElementNamed "Color" with
  | none => .error .null_dereference
  | some color =>
    .ok ⟨⟨color.DoubleAttribute "r", color.DoubleAttribute "g", color.DoubleAttribute "b"⟩⟩

/-- The constructor `metal(tinyxml2::XMLElement*)`. -/
def metal.from_xml (pElement : XMLElement K) : Except load_error (metal K) :=
  let fuzz := pElement.DoubleAttribute "Fuzz"
  match pElement.FirstChildElementNamed "Color" with
  | none => .error .null_dereference
  | some color =>
    .ok ⟨⟨color.DoubleAttribute "r", color.DoubleAttribute "g", color.DoubleAttribute "b"⟩,
      fuzz⟩

/-- The constructor `dielectric(tinyxml2::XMLElement*)`. -/
def dielectric.from_xml (pElement : XMLElement K) : dielectric K :=
  ⟨pElement.DoubleAttribute "Ir"⟩

/-- The static method `material::material_from_xml`. -/
def material.material_from_xml (pElement : XMLElement K) :
    Except load_error (material K) :=
  match pElement.FirstChildElement with
  | none => .error .null_dereference
  | some matElement =>
    if matElement.Name = "Lambertian" then
      (lambertian.from_xml matElement).map material.lambertian
    else if matElement.Name = "Metal" then
      (metal.from_xml matElement).map material.metal
    else if matElement.Name = "Dielectric" then
      .ok (material.dielectric (dielectric.from_xml matElement))
    else
      .error (.invalid_argument ("Material " ++ matElement.Name ++ " isn't defined"))

/-! ## Materials to XML (`material.hpp`) -/

namespace XMLElement

/-- Modelled from the spec: `XMLDocument::NewElement` of tinyxml2, a fresh element with
the given tag name, no attribute and no child. -/
def NewElement (name : String) : XMLElement K :=
  mk name [] []

/-- Modelled from the spec: `XMLElement::SetAttribute(name, double)` of tinyxml2; the
attribute is overwritten when the element has it and appended otherwise. -/
def SetAttribute (e : XMLElement K) (name : String) (value : K) : XMLElement K :=
  match e with
  | mk n attrs ch =>
    if attrs.any (fun a => a.1 == name) then
      mk n (attrs.map (fun a => if a.1 == name then (name, value) else a)) ch
    else
      mk n (attrs ++ [(name, value)]) ch

/-- Modelled from the spec: `XMLNode::InsertEndChild` of tinyxml2, the child becomes the
last child of the element. -/
def InsertEndChild (e : XMLElement K) (child : XMLElement K) : XMLElement K :=
  match e with
  | mk n attrs ch => mk n attrs (ch ++ [child])

end XMLElement

/-- The method `lambertian::to_xml`. -/
def lambertian.to_xml (self : lambertian K) : XMLElement K :=
  let pElement : XMLElement K := XMLElement.NewElement "Lambertian"
  let color : XMLElement K := XMLElement.NewElement "Color"
  let color := color.SetAttribute "r" self.albedo.x
  let color := color.SetAttribute "g" self.albedo.y
  let color := color.SetAttribute "b" self.albedo.z
  pElement.InsertEndChild color

/-- The method `metal::to_xml`. -/
def metal.to_xml (self : metal K) : XMLElement K :=
  let pElement : XMLElement K := XMLElement.NewElement "Metal"
  let color : XMLElement K := XMLElement.NewElement "Color"
  let color := color.SetAttribute "r" self.albedo.x
  let color := color.SetAttribute "g" self.albedo.y
  let color := color.SetAttribute "b" self.albedo.z
  let pElement := pElement.InsertEndChild color
  pElement.SetAttribute "Fuzz" self.fuzz

/-- The method `dielectric::to_xml`. -/
def dielectric.to_xml (self : dielectric K) : XMLElement K :=
  let pElement : XMLElement K := XMLElement.NewElement "Dielectric"
  pElement.SetAttribute "Ir" self.ir

/-- The virtual call `mat_ptr->to_xml(xmlDoc)` on one of the three variants. -/
def material.to_xml (self : material K) : XMLElement K :=
  match self with
  | .lambertian m => m.to_xml
  | .metal m => m.to_xml
  | .dielectric m => m.to_xml

/-! ## Sphere intersection (`engine.cpp`) -/

/-- The function `hit_sphere` of `engine.cpp`. -/
def hit_sphere (sqrt : K → K) (center : vec3 K) (radius : K) (r : ray K) : K :=
  let oc := r.origin - center
  let a := r.direction.length_squared
  let half_b := dot oc r.direction
  let c := oc.length_squared - radius * radius
  let discriminant := half_b * half_b - a * c
  if discriminant < 0 then -1
  else (-half_b - sqrt discriminant) / a

end arithmetic_generic

variable {K : Type} [LinearOrderedField K] {G : Type}

/-! ## The engine (`engine.cpp`) -/

/-- Modelled from the spec: `camera.hpp` is not among the sources. A camera maps the
image-plane fractions `(s, t)` to a ray; it samples the lens, so it receives and
returns the generator state. -/
structure camera (K G : Type) where
  get_ray : K → K → G → ray K × G

/-- Modelled from the spec: `sf::Texture` is the external display surface. The model
records the size it was created with (`create`) and the buffer handed to `update`. -/
structure Texture where
  width : Int
  height : Int
  data : List Nat

/-- Fields of `class Engine` that `engine.cpp` reads and writes. -/
structure Engine where
  texture : Texture
  img_width : Int
  img_height : Int
  pixels : List Nat
  changed : Bool

/-- The call `pixels.resize(n)` of `std::vector`: the first `n` elements are kept and
the vector is padded with zeros up to length `n`. -/
def vector_resize (v : List Nat) (n : Nat) : List Nat :=
  v.take n ++ List.replicate (n - v.length) 0

/-- The constructor `Engine::Engine(texture, img_width, img_height)`; the flag `changed`
is not set by the constructor body and is passed in. -/
def Engine.new (texture : Texture) (img_width img_height : Int) (changed : Bool) : Engine :=
  ⟨texture, img_width, img_height, List.replicate (img_width * img_height * 4).toNat 0,
    changed⟩

section engine

variable [FloorRing K]

/-- The conversion `static_cast<int>(x)` of a `double`: truncation toward zero. -/
def static_cast_int (x : K) : Int :=
  if 0 ≤ x then ⌊x⌋ else ⌈x⌉

/-- The constant `image_width` of `Engine::createImage`. -/
def image_width : Int := 400

/-- The constant `aspect_ratio` of `Engine::createImage`. -/
def aspect_ratio (K : Type) [LinearOrderedField K] : K := 3 / 2

/-- The constant `image_height` of `Engine::createImage`. -/
def image_height (K : Type) [LinearOrderedField K] [FloorRing K] : Int :=
  static_cast_int ((image_width : K) / aspect_ratio K)

/-- The constant `samples_per_pixel` of `Engine::createImage`. -/
def samples_per_pixel : Int := 20

/-- The constant `max_depth` of `Engine::createImage`. -/
def max_depth : Int := 50

/-- Modelled from the spec: `write_color` of `color.hpp` is not among the sources. It
divides the accumulated colour by the sample count, takes the square root of each
channel, clamps to `[0, 0.999]`, scales by 256, truncates, and appends the four RGBA
bytes of the pixel to the buffer. -/
def write_color (sqrt : K → K) (pixels : List Nat) (pixel_color : vec3 K)
    (samples : Int) : List Nat :=
  let scale : K := 1 / (samples : K)
  let clamp : K → K := fun c => if c < 0 then 0 else if c > 999 / 1000 then 999 / 1000 else c
  let r := sqrt (scale * pixel_color.x)
  let g := sqrt (scale * pixel_color.y)
  let b := sqrt (scale * pixel_color.z)
  pixels ++ [(static_cast_int (256 * clamp r)).toNat, (static_cast_int (256 * clamp g)).toNat,
    (static_cast_int (256 * clamp b)).toNat, 255]

/-- The two image-plane coordinates `u` and `v` that the innermost loop of
`Engine::createImage` computes for column `i` and row `j` and passes to `cam.get_ray`. -/
def sample_uv (rs : random_source K G) (i j : Int) (g : G) : (K × K) × G :=
  let (d1, g1) := rs.random_double g
  let u := ((i : K) + d1) / ((image_width - 1 : Int) : K)
  let (d2, g2) := rs.random_double g1
  let v := ((j : K) + d2) / ((image_height K - 1 : Int) : K)
  ((u, v), g2)

/-- One pass of the loop over `s` of `Engine::createImage`: a jittered camera ray is
traced and its colour added to `pixel_color`. -/
def render_sample (sqrt : K → K) (rs : random_source K G) (cam : camera K G)
    (world : hittable K G) (i j : Int) (acc : vec3 K × G) : vec3 K × G :=
  match sample_uv rs i j acc.2 with
  | ((u, v), g1) =>
    match cam.get_ray u v g1 with
    | (r, g2) =>
      match ray_color sqrt rs r world max_depth g2 with
      | (c, g3) => (acc.1 + c, g3)

/-- One pass of the loop over `i` of `Engine::createImage`: the samples of the pixel
are accumulated from black and `write_color` appends the pixel to the buffer. -/
def render_pixel (sqrt : K → K) (rs : random_source K G) (cam : camera K G)
    (world : hittable K G) (i j : Int) (acc : List Nat × G) : List Nat × G :=
  match (List.range samples_per_pixel.toNat).foldl
      (fun a _ => render_sample sqrt rs cam world i j a) (color 0 0 0, acc.2) with
  | (pixel_color, g1) => (write_color sqrt acc.1 pixel_color samples_per_pixel, g1)

/-- One pass of the loop over `j` of `Engine::createImage`: the columns
`0, ..., image_width-1` of the row. -/
def render_row (sqrt : K → K) (rs : random_source K G) (cam : camera K G)
    (world : hittable K G) (j : Int) (acc : List Nat × G) : List Nat × G :=
  (List.range image_width.toNat).foldl
    (fun a (i : Nat) => render_pixel sqrt rs cam world (Int.ofNat i) j a) acc

/-- The loop over `j` of `Engine::createImage`: the rows `image_height-1, ..., 0`. -/
def render_rows (sqrt : K → K) (rs : random_source K G) (cam : camera K G)
    (world : hittable K G) (acc : List Nat × G) : List Nat × G :=
  (List.range (image_height K).toNat).reverse.foldl
    (fun a (j : Nat) => render_row sqrt rs cam world (Int.ofNat j) a) acc

/-- The method `Engine::createImage`. The scene built by `random_scene()` and the camera
built from the constants of the method come from headers that are not among the
sources; the scene builder, which draws from the generator, and the camera are passed
in. The progress messages on the standard streams are left out. -/
def Engine.createImage (sqrt : K → K) (rs : random_source K G)
    (random_scene : G → hittable K G × G) (cam : camera K G) (self : Engine) (g : G) :
    Engine × G :=
  match random_scene g with
  | (world, g1) =>
    if self.changed then
      match render_rows sqrt rs cam world ([], g1) with
      | (pixels, g2) => (⟨self.texture, self.img_width, self.img_height, pixels, false⟩, g2)
    else (self, g1)

/-- The method `Engine::renderImage()`. -/
def Engine.renderImage (sqrt : K → K) (rs : random_source K G)
    (random_scene : G → hittable K G × G) (cam : camera K G) (self : Engine) (g : G) :
    Engine × G :=
  match self.createImage sqrt rs random_scene cam g with
  | (e, g1) =>
    (⟨⟨e.img_width, e.img_height, e.pixels⟩, e.img_width, e.img_height, e.pixels,
      e.changed⟩, g1)

/-- The method `Engine::renderImage(int new_img_width, int new_img_height)`. The sizes
are mathematical integers: the model is meant for non-negative sizes whose byte count
`new_img_height*new_img_width*4` fits an `int`. -/
def Engine.renderImage_size (sqrt : K → K) (rs : random_source K G)
    (random_scene : G → hittable K G × G) (cam : camera K G) (self : Engine)
    (new_img_width new_img_height : Int) (g : G) : Engine × G :=
  let self1 : Engine :=
    if self.img_height ≠ new_img_height ∨ self.img_width ≠ new_img_width then
      ⟨self.texture, new_img_width, new_img_height,
        vector_resize self.pixels (new_img_height * new_img_width * 4).toNat, self.changed⟩
    else self
  self1.renderImage sqrt rs random_scene cam g

end engine

/-! ## Auxiliary notions and sample data -/

/-- The function `sqrt` is the square root on the non-negative numbers. -/
def IsSqrt (sqrt : K → K) : Prop :=
  ∀ x, 0 ≤ x → 0 ≤ sqrt x ∧ sqrt x * sqrt x = x

/-- A generator that always draws the same values and counts the draws in its state. -/
def counting_source (x : K) (p w : vec3 K) : random_source K Nat :=
  ⟨fun n => (x, n + 1), fun n => (p, n + 1), fun n => (w, n + 1)⟩

/-- The empty scene: no ray hits anything. -/
def empty_world : hittable K Nat :=
  ⟨fun _ _ _ n => (none, n)⟩

/-- A scene that answers every query with the same hit record and counts the queries
in the state. -/
def probe_world (rec : hit_record K) : hittable K Nat :=
  ⟨fun _ _ _ n => (some rec, n + 1)⟩

/-- A scene builder that draws once from the generator and returns the empty scene. -/
def sample_scene : Nat → hittable K Nat × Nat :=
  fun n => (empty_world, n + 1)

/-- A camera at the origin looking down the negative z-axis; each ray costs one draw. -/
def sample_camera : camera K Nat :=
  ⟨fun u v n => (⟨color 0 0 0, color u v (-1), 0⟩, n + 1)⟩

/-- A scene that answers every query with the same hit record, without touching the
generator. -/
def wall_world (rec : hit_record K) : hittable K Nat :=
  ⟨fun _ _ _ n => (some rec, n)⟩

section vec3_lemmas

variable (u v : vec3 K) (t : K)

@[simp] theorem vec3.add_x : (u + v).x = u.x + v.x := rfl
@[simp] theorem vec3.add_y : (u + v).y = u.y + v.y := rfl
@[simp] theorem vec3.add_z : (u + v).z = u.z + v.z := rfl
@[simp] theorem vec3.sub_x : (u - v).x = u.x - v.x := rfl
@[simp] theorem vec3.sub_y : (u - v).y = u.y - v.y := rfl
@[simp] theorem vec3.sub_z : (u - v).z = u.z - v.z := rfl
@[simp] theorem vec3.neg_x : (-u).x = -u.x := rfl
@[simp] theorem vec3.neg_y : (-u).y = -u.y := rfl
@[simp] theorem vec3.neg_z : (-u).z = -u.z := rfl
@[simp] theorem vec3.mul_x : (u * v).x = u.x * v.x := rfl
@[simp] theorem vec3.mul_y : (u * v).y = u.y * v.y := rfl
@[simp] theorem vec3.mul_z : (u * v).z = u.z * v.z := rfl
@[simp] theorem vec3.smul_x : (t • v).x = t * v.x := rfl
@[simp] theorem vec3.smul_y : (t • v).y = t * v.y := rfl
@[simp] theorem vec3.smul_z : (t • v).z = t * v.z := rfl
@[simp] theorem color_x (r g b : K) : (color r g b).x = r := rfl
@[simp] theorem color_y (r g b : K) : (color r g b).y = g := rfl
@[simp] theorem color_z (r g b : K) : (color r g b).z = b := rfl

end vec3_lemmas

/-- In an ordered field `fabs` is the absolute value. -/
theorem fabs_eq_abs (x : K) : fabs x = |x| := by
  unfold fabs
  split_ifs with h
  · exact (abs_of_neg h).symm
  · exact (abs_of_nonneg (not_lt.mp h)).symm

/-- The value of `fabs` is non-negative. -/
theorem fabs_nonneg (x : K) : 0 ≤ fabs x := by
  rw [fabs_eq_abs]; exact abs_nonneg x

/-- On a non-negative number the square root of the square is the number itself. -/
theorem IsSqrt.sqrt_mul_self {sqrt : K → K} (hs : IsSqrt sqrt) {k : K} (hk : 0 ≤ k) :
    sqrt (k * k) = k := by
  obtain ⟨h0, h1⟩ := hs (k * k) (mul_self_nonneg k)
  nlinarith [mul_self_nonneg (sqrt (k * k) - k), mul_nonneg h0 hk]

/-- The real square root is a square root in the sense of `IsSqrt`. -/
theorem isSqrt_real : IsSqrt Real.sqrt :=
  fun x hx => ⟨Real.sqrt_nonneg x, Real.mul_self_sqrt hx⟩

/-! ## The integrator -/

/-- One unfolding of `ray_color` below the depth cap. -/
theorem ray_color_of_pos (sqrt : K → K) (rs : random_source K G) (r : ray K)
    (world : hittable K G) (depth : Int) (g : G) (hd : 0 < depth) :
    ray_color sqrt rs r world depth g =
      match world.hit r (1 / 1000) ⊤ g with
      | (some rec, g1) =>
        match rec.mat_ptr.scatter sqrt rs r rec g1 with
        | (res, g2) =>
          if res.scattered_ok then
            match ray_color sqrt rs res.scattered world (depth - 1) g2 with
            | (c, g3) => (res.attenuation * c, g3)
          else (color 0 0 0, g2)
      | (none, g1) =>
        ((1 - (1 / 2) * ((unit_vector sqrt r.direction).y + 1)) • color 1 1 1
          + ((1 / 2) * ((unit_vector sqrt r.direction).y + 1)) • color (1 / 2) (7 / 10) 1,
          g1) := by
  rw [ray_color, if_neg (not_le.mpr hd)]

/-- C1: for every ray, every world and every depth `≤ 0`, `ray_color` returns black
and leaves the generator state as it was: whatever the world's `hit` and the materials'
`scatter` would do to the state, none of them is run. -/
theorem ray_color_depth_exhausted (sqrt : K → K) (rs : random_source K G) (r : ray K)
    (world : hittable K G) (depth : Int) (g : G) (hd : depth ≤ 0) :
    ray_color sqrt rs r world depth g = (color 0 0 0, g) := by
  rw [ray_color, if_pos hd]

/-- Instance of `ray_color_depth_exhausted` at depth 0, in a world whose every query
would advance the state. -/
theorem ray_color_depth_exhausted_witness :
    ray_color (fun x : ℚ => x) (counting_source 0 (color 0 0 0) (color 0 1 0))
        ⟨color 0 0 0, color 0 0 (-1), 0⟩
        (probe_world ⟨color 0 0 (-1), color 0 0 1, .lambertian ⟨color 1 1 1⟩, 1, true⟩)
        0 0
      = (color 0 0 0, 0) :=
  ray_color_depth_exhausted _ _ _ _ 0 0 (le_refl 0)

/-- C2: for depth `> 0`, when `world.hit(r, 0.001, infinity)` reports the record `rec`:
if the scatter of `rec`'s material returns true with attenuation `a` and scattered ray
`s`, then `ray_color(r, world, depth)` is the componentwise product of `a` and
`ray_color(s, world, depth-1)`; if it returns false, `ray_color` is black. -/
theorem ray_color_hit (sqrt : K → K) (rs : random_source K G) (r : ray K)
    (world : hittable K G) (depth : Int) (g g1 : G) (rec : hit_record K)
    (hd : 0 < depth) (hhit : world.hit r (1 / 1000) ⊤ g = (some rec, g1)) :
    (∀ a s g2, rec.mat_ptr.scatter sqrt rs r rec g1 = (⟨true, a, s⟩, g2) →
        ray_color sqrt rs r world depth g =
          (a * (ray_color sqrt rs s world (depth - 1) g2).1,
            (ray_color sqrt rs s world (depth - 1) g2).2)) ∧
      (∀ a s g2, rec.mat_ptr.scatter sqrt rs r rec g1 = (⟨false, a, s⟩, g2) →
        ray_color sqrt rs r world depth g = (color 0 0 0, g2)) := by
  constructor
  · intro a s g2 hsc
    rw [ray_color_of_pos sqrt rs r world depth g hd, hhit]
    simp only [hsc, if_true]
  · intro a s g2 hsc
    rw [ray_color_of_pos sqrt rs r world depth g hd, hhit]
    simp [hsc]

/-- Instance of `ray_color_hit` at depth 1 on a white lambertian surface: the scattered
ray is traced at depth 0. -/
theorem ray_color_hit_witness :
    ray_color (fun x : ℚ => x) (counting_source 0 (color 0 0 0) (color 0 1 0))
        ⟨color 0 0 0, color 0 0 (-1), 0⟩
        (probe_world ⟨color 0 0 (-1), color 0 0 1, .lambertian ⟨color 1 1 1⟩, 1, true⟩)
        1 0
      = (color 1 1 1 *
          (ray_color (fun x : ℚ => x) (counting_source 0 (color 0 0 0) (color 0 1 0))
            ⟨color 0 0 (-1), color 0 0 1 + color 0 1 0, 0⟩
            (probe_world ⟨color 0 0 (-1), color 0 0 1, .lambertian ⟨color 1 1 1⟩, 1, true⟩)
            (1 - 1) 2).1,
          (ray_color (fun x : ℚ => x) (counting_source 0 (color 0 0 0) (color 0 1 0))
            ⟨color 0 0 (-1), color 0 0 1 + color 0 1 0, 0⟩
            (probe_world ⟨color 0 0 (-1), color 0 0 1, .lambertian ⟨color 1 1 1⟩, 1, true⟩)
            (1 - 1) 2).2) :=
  (ray_color_hit _ _ _ _ 1 0 1 _ (by decide) rfl).1 _ _ 2 (by
    simp [material.scatter, lambertian.scatter, counting_source, vec3.near_zero,
      fabs_eq_abs, color]
    norm_num)

/-- The y-component of the normalised direction is the y-component divided by the
length. -/
theorem unit_vector_y (sqrt : K → K) (v : vec3 K) :
    (unit_vector sqrt v).y = v.y / sqrt v.length_squared := by
  simp only [unit_vector, vec3.div, vec3.length, vec3.smul_y]
  ring

/-- C3: for depth `> 0` and a ray with non-zero direction that hits nothing in
`(0.001, infinity)`, `ray_color` is `(1-t)*(1,1,1) + t*(0.5,0.7,1.0)` with
`t = 0.5*(y + 1)`, `y` being the y-component of the direction divided by its length;
a ray pointing straight up yields `(0.5,0.7,1.0)`, one pointing straight down yields
white. -/
theorem ray_color_sky (sqrt : K → K) (rs : random_source K G) (r : ray K)
    (world : hittable K G) (depth : Int) (g g1 : G)
    (hs : IsSqrt sqrt) (hd : 0 < depth) (hdir : r.direction ≠ ⟨0, 0, 0⟩)
    (hmiss : world.hit r (1 / 1000) ⊤ g = (none, g1)) :
    ray_color sqrt rs r world depth g =
        ((1 - (1 / 2) * (r.direction.y / sqrt r.direction.length_squared + 1))
            • color 1 1 1
          + ((1 / 2) * (r.direction.y / sqrt r.direction.length_squared + 1))
            • color (1 / 2) (7 / 10) 1, g1) ∧
      (∀ k, 0 < k → r.direction = ⟨0, k, 0⟩ →
        ray_color sqrt rs r world depth g = (color (1 / 2) (7 / 10) 1, g1)) ∧
      (∀ k, 0 < k → r.direction = ⟨0, -k, 0⟩ →
        ray_color sqrt rs r world depth g = (color 1 1 1, g1)) := by
  have main : ray_color sqrt rs r world depth g =
        ((1 - (1 / 2) * (r.direction.y / sqrt r.direction.length_squared + 1))
            • color 1 1 1
          + ((1 / 2) * (r.direction.y / sqrt r.direction.length_squared + 1))
            • color (1 / 2) (7 / 10) 1, g1) := by
    rw [ray_color_of_pos sqrt rs r world depth g hd, hmiss]
    simp only [unit_vector_y]
  refine ⟨main, ?_, ?_⟩
  · intro k hk hrd
    have hlen : sqrt r.direction.length_squared = k := by
      have : r.direction.length_squared = k * k := by
        simp [hrd, vec3.length_squared]
      rw [this, hs.sqrt_mul_self hk.le]
    have hy : r.direction.y = k := by rw [hrd]
    rw [main, hlen, hy, div_self hk.ne.symm]
    refine Prod.ext ?_ rfl
    ext <;> simp <;> norm_num
  · intro k hk hrd
    have hlen : sqrt r.direction.length_squared = k := by
      have : r.direction.length_squared = k * k := by
        simp [hrd, vec3.length_squared]
      rw [this, hs.sqrt_mul_self hk.le]
    have hy : r.direction.y = -k := by rw [hrd]
    rw [main, hlen, hy, neg_div, div_self hk.ne.symm]
    refine Prod.ext ?_ rfl
    ext <;> simp

/-- Instance of `ray_color_sky` over the reals: in the empty scene a ray pointing
straight up gets the pale blue end of the gradient. -/
theorem ray_color_sky_witness :
    ray_color Real.sqrt (counting_source 0 (color 0 0 0) (color 0 1 0))
        ⟨color 0 0 0, ⟨0, 1, 0⟩, 0⟩ empty_world 1 0
      = (color (1 / 2) (7 / 10) 1, 0) :=
  (ray_color_sky Real.sqrt _ ⟨color 0 0 0, ⟨0, 1, 0⟩, 0⟩ empty_world 1 0 0 isSqrt_real
    (by decide) (by simp) rfl).2.1 1 one_pos rfl

/-! ## Materials -/

/-- C4: `lambertian::scatter` always returns true and the attenuation it returns is
the albedo, whatever the incoming ray, the hit record, the generator and its state
(hence whatever unit vector is drawn); the same holds through the virtual call. -/
theorem lambertian_scatter_attenuation (sqrt : K → K) (rs : random_source K G)
    (self : lambertian K) (r_in : ray K) (rec : hit_record K) (g : G) :
    (self.scatter rs r_in rec g).1.scattered_ok = true ∧
      (self.scatter rs r_in rec g).1.attenuation = self.albedo ∧
      ((material.lambertian self).scatter sqrt rs r_in rec g).1.scattered_ok = true ∧
      ((material.lambertian self).scatter sqrt rs r_in rec g).1.attenuation
        = self.albedo ∧
      (∀ (rs2 : random_source K G) (r2 : ray K) (rec2 : hit_record K) (g2 : G),
        (self.scatter rs2 r2 rec2 g2).1.attenuation
          = (self.scatter rs r_in rec g).1.attenuation) := by
  simp [material.scatter, lambertian.scatter]

/-- C5: `metal::scatter` leaves in `scattered` the ray from `rec.p` with direction
`reflect(unit(r_in.direction), rec.normal) + fuzz*p`, `p` being the drawn unit-ball
sample, and with the time of `r_in`; the attenuation is the albedo; it returns true
if and only if the scattered direction has a positive dot product with the normal. -/
theorem metal_scatter_spec (sqrt : K → K) (rs : random_source K G)
    (self : metal K) (r_in : ray K) (rec : hit_record K) (g : G) :
    (self.scatter sqrt rs r_in rec g).1.scattered =
        ⟨rec.p,
          reflect (unit_vector sqrt r_in.direction) rec.normal
            + self.fuzz • (rs.random_in_unit_sphere g).1,
          r_in.time⟩ ∧
      (self.scatter sqrt rs r_in rec g).1.attenuation = self.albedo ∧
      ((self.scatter sqrt rs r_in rec g).1.scattered_ok = true ↔
        dot (self.scatter sqrt rs r_in rec g).1.scattered.direction rec.normal > 0) ∧
      ((self.scatter sqrt rs r_in rec g).1.scattered_ok = false ↔
        ¬ dot (self.scatter sqrt rs r_in rec g).1.scattered.direction rec.normal > 0) ∧
      (self.scatter sqrt rs r_in rec g).2 = (rs.random_in_unit_sphere g).2 := by
  simp [metal.scatter]

/-- C7: `dielectric::scatter` always returns true, the attenuation is `(1,1,1)`, and
the scattered ray starts at `rec.p` with the time of the incoming ray. -/
theorem dielectric_scatter_always (sqrt : K → K) (rs : random_source K G)
    (self : dielectric K) (r_in : ray K) (rec : hit_record K) (g : G) :
    (self.scatter sqrt rs r_in rec g).1.scattered_ok = true ∧
      (self.scatter sqrt rs r_in rec g).1.attenuation = color 1 1 1 ∧
      (self.scatter sqrt rs r_in rec g).1.scattered.origin = rec.p ∧
      (self.scatter sqrt rs r_in rec g).1.scattered.time = r_in.time := by
  unfold dielectric.scatter
  simp only
  split_ifs <;> simp

/-- C8 (as stated, refuted): at `ref_idx = -1` the quotient `(1-ref_idx)/(1+ref_idx)` is
`2/0`, so `r0` is `+infinity`, and `reflectance(1, -1)` computes
`r0 + (1-r0)*0 = inf + (-inf)*0`, which is not a number and is not `r0`. -/
theorem reflectance_at_minus_one :
    ((1 - (-1 : binary64)) / (1 + (-1))) ^ 2 = binary64.pinf ∧
      dielectric.reflectance (1 : binary64) (-1) = binary64.nan ∧
      dielectric.reflectance (1 : binary64) (-1)
        ≠ ((1 - (-1 : binary64)) / (1 + (-1))) ^ 2 := by
  decide

/-- C8 (amended): for every `ref_idx` other than `-1`, `reflectance(1, ref_idx)` is
`r0 = ((1-ref_idx)/(1+ref_idx))^2`, the term `(1-cosine)^5` being zero; and
`reflectance(cosine, ref_idx)` is `r0 + (1-r0)*(1-cosine)^5` for every cosine. -/
theorem reflectance_schlick (ref_idx : K) (href : 1 + ref_idx ≠ 0) :
    dielectric.reflectance 1 ref_idx = ((1 - ref_idx) / (1 + ref_idx)) ^ 2 ∧
      ((1 : K) - 1) ^ 5 = 0 ∧
      ∀ cosine : K, dielectric.reflectance cosine ref_idx =
        ((1 - ref_idx) / (1 + ref_idx)) ^ 2
          + (1 - ((1 - ref_idx) / (1 + ref_idx)) ^ 2) * (1 - cosine) ^ 5 := by
  refine ⟨?_, by norm_num, ?_⟩
  · simp [dielectric.reflectance, pow_two]
  · intro cosine
    simp [dielectric.reflectance, pow_two]

/-- Instance of `reflectance_schlick`: for glass seen from inside (`ref_idx = 3/2`) the
reflectance at cosine 1 is `((1 - 3/2)/(1 + 3/2))^2`. -/
theorem reflectance_schlick_witness :
    dielectric.reflectance (1 : ℚ) (3 / 2) = ((1 - 3 / 2) / (1 + 3 / 2)) ^ 2 :=
  (reflectance_schlick (3 / 2 : ℚ) (by norm_num)).1

/-- C6 (as stated, refuted): `metal(albedo, -1)` stores the fuzz `-1`, below 0, and a
metal read from an XML element with `Fuzz = 2` stores the fuzz 2, above 1. -/
theorem metal_fuzz_not_clamped :
    (metal.new (color (1 : ℚ) 1 1) (-1)).fuzz = -1 ∧
      ¬ (0 ≤ (metal.new (color (1 : ℚ) 1 1) (-1)).fuzz) ∧
      metal.from_xml (XMLElement.mk "Metal" [("Fuzz", (2 : ℚ))]
          [XMLElement.mk "Color" [("r", 1), ("g", 1), ("b", 1)] []])
        = .ok ⟨⟨1, 1, 1⟩, 2⟩ := by
  refine ⟨?_, ?_, ?_⟩
  · simp [metal.new]
  · simp [metal.new]
  · simp [metal.from_xml, XMLElement.FirstChildElementNamed, XMLElement.children,
      XMLElement.Name, XMLElement.DoubleAttribute, XMLElement.attributes]

/-- C6 (amended): the fuzz stored by `metal(albedo, f)` is `f` when `f < 1` and 1
otherwise, so it never exceeds 1 and it is non-negative whenever `f` is; a metal built
from an XML element whose `Fuzz` attribute already lies in `[0,1]` stores that value,
so that `0 <= fuzz <= 1` there too. -/
theorem metal_fuzz_range (a : vec3 K) (f : K) :
    (metal.new a f).fuzz = min f 1 ∧
      (metal.new a f).fuzz ≤ 1 ∧
      (0 ≤ f → 0 ≤ (metal.new a f).fuzz ∧ (metal.new a f).fuzz ≤ 1) ∧
      (∀ (e : XMLElement K) (m : metal K), e.DoubleAttribute "Fuzz" = f →
        metal.from_xml e = .ok m → 0 ≤ f → f ≤ 1 →
        m.fuzz = f ∧ 0 ≤ m.fuzz ∧ m.fuzz ≤ 1) := by
  have h1 : (metal.new a f).fuzz = min f 1 := by
    simp only [metal.new]
    split_ifs with h
    · exact (min_eq_left h.le).symm
    · exact (min_eq_right (not_lt.mp h)).symm
  refine ⟨h1, ?_, ?_, ?_⟩
  · rw [h1]; exact min_le_right _ _
  · intro hf
    rw [h1]
    exact ⟨le_min hf zero_le_one, min_le_right _ _⟩
  · intro e m he hm hf0 hf1
    have hm2 : m.fuzz = f := by
      unfold metal.from_xml at hm
      simp only at hm
      split at hm
      · cases hm
      · cases hm
        exact he
    exact ⟨hm2, hm2 ▸ hf0, hm2 ▸ hf1⟩

/-- Instance of `metal_fuzz_range`: the requested fuzz 2 is stored as 1, and the XML
element with `Fuzz = 1/2` yields the fuzz `1/2`. -/
theorem metal_fuzz_range_witness :
    (metal.new (color (1 : ℚ) 1 1) 2).fuzz ≤ 1 ∧
      (0 ≤ (metal.new (color (1 : ℚ) 1 1) 2).fuzz ∧
        (metal.new (color (1 : ℚ) 1 1) 2).fuzz ≤ 1) ∧
      ((⟨⟨1, 1, 1⟩, 1 / 2⟩ : metal ℚ).fuzz = 1 / 2 ∧
        0 ≤ (⟨⟨1, 1, 1⟩, 1 / 2⟩ : metal ℚ).fuzz ∧
        (⟨⟨1, 1, 1⟩, 1 / 2⟩ : metal ℚ).fuzz ≤ 1) :=
  ⟨(metal_fuzz_range (color (1 : ℚ) 1 1) 2).2.1,
    (metal_fuzz_range (color (1 : ℚ) 1 1) 2).2.2.1 (by norm_num),
    (metal_fuzz_range (color (1 : ℚ) 1 1) (1 / 2)).2.2.2
      (XMLElement.mk "Metal" [("Fuzz", (1 / 2 : ℚ))]
        [XMLElement.mk "Color" [("r", 1), ("g", 1), ("b", 1)] []])
      ⟨⟨1, 1, 1⟩, 1 / 2⟩
      (by simp [XMLElement.DoubleAttribute, XMLElement.attributes])
      (by simp [metal.from_xml, XMLElement.FirstChildElementNamed, XMLElement.children,
        XMLElement.Name, XMLElement.DoubleAttribute, XMLElement.attributes])
      (by norm_num) (by norm_num)⟩

/-! ## Perpendicular incidence on a dielectric -/

/-- The square root of zero is zero. -/
theorem IsSqrt.sqrt_zero {sqrt : K → K} (hs : IsSqrt sqrt) : sqrt 0 = 0 := by
  have h := hs.sqrt_mul_self (le_refl (0 : K))
  simpa using h

/-- The square root of one is one. -/
theorem IsSqrt.sqrt_one {sqrt : K → K} (hs : IsSqrt sqrt) : sqrt 1 = 1 := by
  have h := hs.sqrt_mul_self (zero_le_one : (0 : K) ≤ 1)
  simpa using h

/-- Normalising a direction anti-parallel to a unit vector `n` gives `-n`. -/
theorem unit_vector_antiparallel {sqrt : K → K} (hs : IsSqrt sqrt) (n : vec3 K) (k : K)
    (hk : 0 < k) (hn : dot n n = 1) : unit_vector sqrt ((-k) • n) = -n := by
  have hlen : ((-k) • n).length_squared = k * k := by
    simp only [vec3.length_squared, vec3.smul_x, vec3.smul_y, vec3.smul_z]
    simp only [dot] at hn
    linear_combination (k * k) * hn
  have hk0 : k ≠ 0 := hk.ne.symm
  simp only [unit_vector, vec3.div, vec3.length, hlen, hs.sqrt_mul_self hk.le]
  ext <;> simp <;> field_simp

/-- Reflecting `-n` about a unit normal `n` gives `n`. -/
theorem reflect_neg_normal (n : vec3 K) (hn : dot n n = 1) : reflect (-n) n = n := by
  have h : dot (-n) n = -1 := by
    simp only [dot, vec3.neg_x, vec3.neg_y, vec3.neg_z]
    simp only [dot] at hn
    linear_combination -hn
  simp only [reflect, h]
  ext <;> simp <;> ring

/-- Refracting `-n` through a unit normal `n` gives `-n`, whatever the ratio. -/
theorem refract_neg_normal {sqrt : K → K} (hs : IsSqrt sqrt) (n : vec3 K) (eta : K)
    (hn : dot n n = 1) : refract sqrt (-n) n eta = -n := by
  have h : dot (-(-n)) n = 1 := by
    simp only [dot, vec3.neg_x, vec3.neg_y, vec3.neg_z, neg_neg]
    exact hn
  have hperp : eta • (-n + (1 : K) • n) = ⟨0, 0, 0⟩ := by
    ext <;> simp
  simp only [refract, h, min_self, hperp]
  ext <;> simp [vec3.length_squared, fabs_eq_abs, hs.sqrt_one]

/-- At perpendicular incidence on a front face, `dielectric::scatter` draws a uniform
number and reflects exactly when the Schlick reflectance at cosine 1 exceeds it. -/
theorem dielectric_scatter_perpendicular {sqrt : K → K} (hs : IsSqrt sqrt)
    (rs : random_source K G) (self : dielectric K) (r_in : ray K) (rec : hit_record K)
    (g : G) (k : K) (hk : 0 < k) (hn : dot rec.normal rec.normal = 1)
    (hff : rec.front_face = true) (hdir : r_in.direction = (-k) • rec.normal) :
    self.scatter sqrt rs r_in rec g =
      (⟨true, color 1 1 1,
        ⟨rec.p,
          if dielectric.reflectance 1 (1 / self.ir) > (rs.random_double g).1 then
            reflect (-rec.normal) rec.normal
          else refract sqrt (-rec.normal) rec.normal (1 / self.ir),
          r_in.time⟩⟩, (rs.random_double g).2) := by
  have hu : unit_vector sqrt r_in.direction = -rec.normal := by
    rw [hdir]; exact unit_vector_antiparallel hs rec.normal k hk hn
  have h : dot (-(-rec.normal)) rec.normal = 1 := by
    simp only [dot, vec3.neg_x, vec3.neg_y, vec3.neg_z, neg_neg]
    exact hn
  unfold dielectric.scatter
  simp only [hu, h, hff, min_self, if_true, mul_one, sub_self, hs.sqrt_zero, mul_zero]
  have hnot : ¬ ((0 : K) > 1) := by norm_num
  simp only [hnot, decide_False, Bool.false_eq_true, if_false]
  split_ifs <;> rfl

/-- The Schlick reflectance of glass (index 1.5) at perpendicular incidence is positive
and below 5%. -/
theorem reflectance_glass_perpendicular :
    0 < dielectric.reflectance (1 : K) (1 / (3 / 2)) ∧
      dielectric.reflectance (1 : K) (1 / (3 / 2)) < 1 / 20 := by
  simp only [dielectric.reflectance]
  constructor <;> norm_num

/-- C9 (as stated, refuted): for glass of index 1.5, the unit normal `(0,1,0)` of a
front face and the incoming direction `(0,-1,0)`, the draw 0 of `[0,1)` makes
`dielectric::scatter` return the reflected direction `(0,1,0)`, which is not the
refracted direction. -/
theorem dielectric_perpendicular_reflects :
    (dielectric.scatter Real.sqrt (counting_source 0 (color 0 0 0) (color 0 0 0))
        ⟨3 / 2⟩ ⟨color 0 2 0, color 0 (-1) 0, 0⟩
        ⟨color 0 1 0, color 0 1 0, .dielectric ⟨3 / 2⟩, 1, true⟩ 0).1.scattered.direction
      = reflect (unit_vector Real.sqrt (color 0 (-1) 0)) (color 0 1 0) ∧
    (dielectric.scatter Real.sqrt (counting_source 0 (color 0 0 0) (color 0 0 0))
        ⟨3 / 2⟩ ⟨color 0 2 0, color 0 (-1) 0, 0⟩
        ⟨color 0 1 0, color 0 1 0, .dielectric ⟨3 / 2⟩, 1, true⟩ 0).1.scattered.direction
      ≠ refract Real.sqrt (unit_vector Real.sqrt (color 0 (-1) 0)) (color 0 1 0)
          (1 / (3 / 2)) := by
  have hn : dot (color (0 : ℝ) 1 0) (color 0 1 0) = 1 := by simp [dot]
  have hd : color (0 : ℝ) (-1) 0 = (-(1 : ℝ)) • color 0 1 0 := by
    ext <;> simp
  have hu : unit_vector Real.sqrt (color (0 : ℝ) (-1) 0) = -color 0 1 0 := by
    rw [hd]; exact unit_vector_antiparallel isSqrt_real _ 1 one_pos hn
  have hsc := dielectric_scatter_perpendicular isSqrt_real
    (counting_source (0 : ℝ) (color 0 0 0) (color 0 0 0)) ⟨3 / 2⟩
    ⟨color 0 2 0, color 0 (-1) 0, 0⟩
    ⟨color 0 1 0, color 0 1 0, .dielectric ⟨3 / 2⟩, 1, true⟩ 0 1 one_pos hn rfl hd
  have hpos : dielectric.reflectance (1 : ℝ) (1 / (3 / 2)) > 0 :=
    reflectance_glass_perpendicular.1
  rw [hsc, hu]
  simp only [counting_source, hpos, if_true]
  refine ⟨trivial, ?_⟩
  rw [reflect_neg_normal _ hn, refract_neg_normal isSqrt_real _ _ hn]
  intro h
  have hy := congrArg vec3.y h
  simp at hy
  linarith

/-- C9 (amended): for glass of index 1.5, a front-face hit with unit normal `n` and an
incoming direction anti-parallel to `n`, `dielectric::scatter` never reflects totally
(`refraction_ratio * sin_theta` is 0, `cannot_refract` is false and a uniform number
`x` is drawn); the Schlick reflectance `r = reflectance(cos_theta, 1/1.5)` is positive
and below 1; the scattered direction is `refract(unit_direction, n, 1/1.5) = -n` for
every draw for which `r > x` is false, and `reflect(unit_direction, n) = n` for every
draw with `r > x`, among them the draw 0. -/
theorem dielectric_perpendicular_refracts (sqrt : K → K) (rs : random_source K G)
    (r_in : ray K) (rec : hit_record K) (g : G) (k : K)
    (hs : IsSqrt sqrt) (hk : 0 < k) (hn : dot rec.normal rec.normal = 1)
    (hff : rec.front_face = true) (hdir : r_in.direction = (-k) • rec.normal) :
    (1 / (3 / 2)) *
        sqrt (1 - min (dot (-unit_vector sqrt r_in.direction) rec.normal) 1
          * min (dot (-unit_vector sqrt r_in.direction) rec.normal) 1) = 0 ∧
      (dielectric.scatter sqrt rs ⟨3 / 2⟩ r_in rec g).2 = (rs.random_double g).2 ∧
      (0 < dielectric.reflectance
          (min (dot (-unit_vector sqrt r_in.direction) rec.normal) 1) (1 / (3 / 2)) ∧
        dielectric.reflectance
          (min (dot (-unit_vector sqrt r_in.direction) rec.normal) 1) (1 / (3 / 2)) < 1) ∧
      (¬ dielectric.reflectance
          (min (dot (-unit_vector sqrt r_in.direction) rec.normal) 1) (1 / (3 / 2))
            > (rs.random_double g).1 →
        (dielectric.scatter sqrt rs ⟨3 / 2⟩ r_in rec g).1.scattered.direction
            = refract sqrt (unit_vector sqrt r_in.direction) rec.normal (1 / (3 / 2)) ∧
          (dielectric.scatter sqrt rs ⟨3 / 2⟩ r_in rec g).1.scattered.direction
            = -rec.normal) ∧
      (dielectric.reflectance
          (min (dot (-unit_vector sqrt r_in.direction) rec.normal) 1) (1 / (3 / 2))
            > (rs.random_double g).1 →
        (dielectric.scatter sqrt rs ⟨3 / 2⟩ r_in rec g).1.scattered.direction
            = reflect (unit_vector sqrt r_in.direction) rec.normal ∧
          (dielectric.scatter sqrt rs ⟨3 / 2⟩ r_in rec g).1.scattered.direction
            = rec.normal) ∧
      ((rs.random_double g).1 = 0 →
        (dielectric.scatter sqrt rs ⟨3 / 2⟩ r_in rec g).1.scattered.direction
          = reflect (unit_vector sqrt r_in.direction) rec.normal) := by
  have hu : unit_vector sqrt r_in.direction = -rec.normal := by
    rw [hdir]; exact unit_vector_antiparallel hs rec.normal k hk hn
  have h : dot (-(-rec.normal)) rec.normal = 1 := by
    simp only [dot, vec3.neg_x, vec3.neg_y, vec3.neg_z, neg_neg]
    exact hn
  have hsc := dielectric_scatter_perpendicular hs rs ⟨3 / 2⟩ r_in rec g k hk hn hff hdir
  have hb : 0 < dielectric.reflectance (1 : K) (1 / (3 / 2)) ∧
      dielectric.reflectance (1 : K) (1 / (3 / 2)) < 1 / 20 := reflectance_glass_perpendicular
  rw [hsc, hu, h, min_self, reflect_neg_normal _ hn, refract_neg_normal hs _ _ hn]
  refine ⟨?_, rfl, ⟨hb.1, by linarith [hb.2]⟩, ?_, ?_, ?_⟩
  · simp [hs.sqrt_zero]
  · intro hx
    rw [if_neg hx]
    exact ⟨rfl, rfl⟩
  · intro hx
    rw [if_pos hx]
    exact ⟨rfl, rfl⟩
  · intro hx
    have hx2 : dielectric.reflectance (1 : K) (1 / (3 / 2)) > (rs.random_double g).1 := by
      rw [hx]; exact hb.1
    rw [if_pos hx2]

/-- Instance of `dielectric_perpendicular_refracts` over the reals: with the normal
`(0,1,0)`, the incoming direction `(0,-2,0)` and the draw `1/2`, the ray leaves along
`(0,-1,0)`. -/
theorem dielectric_perpendicular_refracts_witness :
    (dielectric.scatter Real.sqrt (counting_source (1 / 2) (color 0 0 0) (color 0 0 0))
        ⟨3 / 2⟩ ⟨color 0 2 0, (-(2 : ℝ)) • color 0 1 0, 0⟩
        ⟨color 0 1 0, color 0 1 0, .dielectric ⟨3 / 2⟩, 1, true⟩ 0).1.scattered.direction
      = -color 0 1 0 :=
  ((dielectric_perpendicular_refracts Real.sqrt
    (counting_source (1 / 2) (color 0 0 0) (color 0 0 0))
    ⟨color 0 2 0, (-(2 : ℝ)) • color 0 1 0, 0⟩
    ⟨color 0 1 0, color 0 1 0, .dielectric ⟨3 / 2⟩, 1, true⟩ 0 2
    isSqrt_real (by norm_num) (by simp [dot]) rfl rfl).2.2.2.1
    (by
      have hu : unit_vector Real.sqrt ((-(2 : ℝ)) • color (0 : ℝ) 1 0) = -color 0 1 0 :=
        unit_vector_antiparallel isSqrt_real _ 2 (by norm_num) (by simp [dot])
      have hb := (reflectance_glass_perpendicular :
        _ ∧ dielectric.reflectance (1 : ℝ) (1 / (3 / 2)) < 1 / 20).2
      simp only [hu, counting_source]
      have h1 : min (dot (-(-color (0 : ℝ) 1 0)) (color 0 1 0)) 1 = 1 := by simp [dot]
      rw [h1]
      intro hgt
      linarith)).2

/-! ## Materials from XML -/

/-- C10 (as stated, refuted): the first child of the element is a `Lambertian` tag
without a `Color` child; `material_from_xml` returns no lambertian, the constructor
dereferences the null pointer that `FirstChildElement("Color")` gave it. -/
theorem material_from_xml_lambertian_without_color :
    (XMLElement.mk "Sphere" [] [XMLElement.mk "Lambertian" [] []] :
        XMLElement ℚ).FirstChildElement = some (XMLElement.mk "Lambertian" [] []) ∧
      material.material_from_xml
          (XMLElement.mk "Sphere" [] [XMLElement.mk "Lambertian" [] []] : XMLElement ℚ)
        = .error .null_dereference := by
  refine ⟨rfl, ?_⟩
  simp [material.material_from_xml, XMLElement.FirstChildElement, XMLElement.children,
    XMLElement.Name, lambertian.from_xml, XMLElement.FirstChildElementNamed, Except.map]

/-- C10 (amended): for an element with a first child, `material_from_xml` throws
`invalid_argument` if and only if the tag name of the first child is none of
`Lambertian`, `Metal`, `Dielectric`; for `Dielectric` it returns the dielectric built
from that child, and for `Lambertian` and `Metal` it returns the lambertian and the
metal built from that child provided the child has a `Color` child element. -/
theorem material_from_xml_spec (pElement matElement : XMLElement K)
    (hfirst : pElement.FirstChildElement = some matElement) :
    ((∃ what, material.material_from_xml pElement = .error (.invalid_argument what)) ↔
        (matElement.Name ≠ "Lambertian" ∧ matElement.Name ≠ "Metal" ∧
          matElement.Name ≠ "Dielectric")) ∧
      (matElement.Name = "Lambertian" → ∀ c,
        matElement.FirstChildElementNamed "Color" = some c →
        lambertian.from_xml matElement
            = .ok ⟨⟨c.DoubleAttribute "r", c.DoubleAttribute "g", c.DoubleAttribute "b"⟩⟩ ∧
          material.material_from_xml pElement
            = .ok (.lambertian
                ⟨⟨c.DoubleAttribute "r", c.DoubleAttribute "g", c.DoubleAttribute "b"⟩⟩)) ∧
      (matElement.Name = "Metal" → ∀ c,
        matElement.FirstChildElementNamed "Color" = some c →
        metal.from_xml matElement
            = .ok ⟨⟨c.DoubleAttribute "r", c.DoubleAttribute "g", c.DoubleAttribute "b"⟩,
                matElement.DoubleAttribute "Fuzz"⟩ ∧
          material.material_from_xml pElement
            = .ok (.metal
                ⟨⟨c.DoubleAttribute "r", c.DoubleAttribute "g", c.DoubleAttribute "b"⟩,
                  matElement.DoubleAttribute "Fuzz"⟩)) ∧
      (matElement.Name = "Dielectric" →
        material.material_from_xml pElement
          = .ok (.dielectric (dielectric.from_xml matElement))) := by
  refine ⟨?_, ?_, ?_, ?_⟩
  · constructor
    · rintro ⟨what, hw⟩
      unfold material.material_from_xml at hw
      rw [hfirst] at hw
      simp only at hw
      split_ifs at hw with h1 h2 h3
      · exfalso
        unfold lambertian.from_xml at hw
        split at hw <;> simp [Except.map] at hw
      · exfalso
        unfold metal.from_xml at hw
        simp only at hw
        split at hw <;> simp [Except.map] at hw
      · exact ⟨h1, h2, h3⟩
    · rintro ⟨h1, h2, h3⟩
      refine ⟨"Material " ++ matElement.Name ++ " isn't defined", ?_⟩
      unfold material.material_from_xml
      rw [hfirst]
      simp only [h1, h2, h3, if_false]
  · intro hname c hc
    have hl : lambertian.from_xml matElement
        = .ok ⟨⟨c.DoubleAttribute "r", c.DoubleAttribute "g", c.DoubleAttribute "b"⟩⟩ := by
      unfold lambertian.from_xml
      rw [hc]
    refine ⟨hl, ?_⟩
    unfold material.material_from_xml
    rw [hfirst]
    simp only [hname, if_true, hl]
    rfl
  · intro hname c hc
    have hm : metal.from_xml matElement
        = .ok ⟨⟨c.DoubleAttribute "r", c.DoubleAttribute "g", c.DoubleAttribute "b"⟩,
            matElement.DoubleAttribute "Fuzz"⟩ := by
      unfold metal.from_xml
      simp only [hc]
    refine ⟨hm, ?_⟩
    unfold material.material_from_xml
    rw [hfirst]
    have hne : ¬ ("Metal" = "Lambertian") := by decide
    simp only [hname, hne, if_true, if_false, hm]
    rfl
  · intro hname
    unfold material.material_from_xml
    rw [hfirst]
    have hne1 : ¬ ("Dielectric" = "Lambertian") := by decide
    have hne2 : ¬ ("Dielectric" = "Metal") := by decide
    simp only [hname, hne1, hne2, if_true, if_false]

/-- Instance of `material_from_xml_spec`: a `Dielectric` child with `Ir = 3/2` gives
glass, and the unknown tag `Plastic` makes `material_from_xml` throw. -/
theorem material_from_xml_spec_witness :
    material.material_from_xml
        (XMLElement.mk "Sphere" [] [XMLElement.mk "Dielectric" [("Ir", (3 / 2 : ℚ))] []])
      = .ok (.dielectric
          (dielectric.from_xml (XMLElement.mk "Dielectric" [("Ir", (3 / 2 : ℚ))] []))) ∧
    ∃ what, material.material_from_xml
        (XMLElement.mk "Sphere" [] [XMLElement.mk "Plastic" [] []] : XMLElement ℚ)
      = .error (.invalid_argument what) :=
  ⟨(material_from_xml_spec
      (XMLElement.mk "Sphere" [] [XMLElement.mk "Dielectric" [("Ir", (3 / 2 : ℚ))] []])
      (XMLElement.mk "Dielectric" [("Ir", (3 / 2 : ℚ))] []) rfl).2.2.2 rfl,
    (material_from_xml_spec
      (XMLElement.mk "Sphere" [] [XMLElement.mk "Plastic" [] []] : XMLElement ℚ)
      (XMLElement.mk "Plastic" [] []) rfl).1.mpr
      ⟨by decide, by decide, by decide⟩⟩

/-! ## Serialisation round trip -/

/-- The element written by `lambertian::to_xml`. -/
theorem lambertian_to_xml_eq (m : lambertian K) :
    m.to_xml = XMLElement.mk "Lambertian" []
      [XMLElement.mk "Color" [("r", m.albedo.x), ("g", m.albedo.y), ("b", m.albedo.z)] []] := by
  simp [lambertian.to_xml, XMLElement.NewElement, XMLElement.SetAttribute,
    XMLElement.InsertEndChild]

/-- The element written by `metal::to_xml`. -/
theorem metal_to_xml_eq (m : metal K) :
    m.to_xml = XMLElement.mk "Metal" [("Fuzz", m.fuzz)]
      [XMLElement.mk "Color" [("r", m.albedo.x), ("g", m.albedo.y), ("b", m.albedo.z)] []] := by
  simp [metal.to_xml, XMLElement.NewElement, XMLElement.SetAttribute,
    XMLElement.InsertEndChild]

/-- The element written by `dielectric::to_xml`. -/
theorem dielectric_to_xml_eq (m : dielectric K) :
    m.to_xml = XMLElement.mk "Dielectric" [("Ir", m.ir)] [] := by
  simp [dielectric.to_xml, XMLElement.NewElement, XMLElement.SetAttribute]

/-- C11: for every material `m` of the three variants, `material_from_xml` applied to
an element whose first child is `m.to_xml()` returns a material of the same variant
with the same parameters (albedo `r`, `g`, `b`; fuzz; index of refraction), the
attribute values being exact numbers. -/
theorem material_xml_round_trip (m : material K) (pElement : XMLElement K)
    (hfirst : pElement.FirstChildElement = some m.to_xml) :
    material.material_from_xml pElement = .ok m := by
  unfold material.material_from_xml
  rw [hfirst]
  cases m with
  | lambertian l =>
    obtain ⟨⟨r, g, b⟩⟩ := l
    simp [material.to_xml, lambertian_to_xml_eq, XMLElement.Name, lambertian.from_xml,
      XMLElement.FirstChildElementNamed, XMLElement.children, XMLElement.DoubleAttribute,
      XMLElement.attributes, Except.map]
  | metal l =>
    obtain ⟨⟨r, g, b⟩, f⟩ := l
    simp [material.to_xml, metal_to_xml_eq, XMLElement.Name, metal.from_xml,
      XMLElement.FirstChildElementNamed, XMLElement.children, XMLElement.DoubleAttribute,
      XMLElement.attributes, Except.map]
  | dielectric l =>
    obtain ⟨ir⟩ := l
    simp [material.to_xml, dielectric_to_xml_eq, XMLElement.Name, dielectric.from_xml,
      XMLElement.DoubleAttribute, XMLElement.attributes]

/-- Instance of `material_xml_round_trip`: a metal with fuzz `3/10`, written with
`to_xml` and appended to a fresh `Sphere` element, is read back unchanged. -/
theorem material_xml_round_trip_witness :
    material.material_from_xml
        ((XMLElement.NewElement "Sphere").InsertEndChild
          (material.metal ⟨color (7 / 10 : ℚ) (6 / 10) (5 / 10), 3 / 10⟩).to_xml)
      = .ok (material.metal ⟨color (7 / 10 : ℚ) (6 / 10) (5 / 10), 3 / 10⟩) :=
  material_xml_round_trip _ _ rfl

/-! ## Sphere intersection -/

/-- A non-zero vector has a positive squared length. -/
theorem length_squared_pos (v : vec3 K) (hv : v ≠ ⟨0, 0, 0⟩) : 0 < v.length_squared := by
  obtain ⟨x, y, z⟩ := v
  simp only [vec3.length_squared]
  by_contra hneg
  have hx : x = 0 := by nlinarith [mul_self_nonneg x, mul_self_nonneg y, mul_self_nonneg z]
  have hy : y = 0 := by nlinarith [mul_self_nonneg x, mul_self_nonneg y, mul_self_nonneg z]
  have hz : z = 0 := by nlinarith [mul_self_nonneg x, mul_self_nonneg y, mul_self_nonneg z]
  exact hv (by rw [hx, hy, hz])

/-- The squared distance to the centre along the ray, as a quadratic in the parameter. -/
theorem ray_sphere_quadratic (center : vec3 K) (r : ray K) (t : K) :
    (r.origin + t • r.direction - center).length_squared =
      t * t * r.direction.length_squared + 2 * t * dot (r.origin - center) r.direction
        + (r.origin - center).length_squared := by
  simp only [vec3.length_squared, dot, vec3.add_x, vec3.add_y, vec3.add_z, vec3.sub_x,
    vec3.sub_y, vec3.sub_z, vec3.smul_x, vec3.smul_y, vec3.smul_z]
  ring

/-- In an ordered field, where no operation rounds, the value `hit_sphere` returns for
a non-negative discriminant is the smaller root of `|o + t*d - center|^2 = r^2`: it
satisfies the equation and no smaller parameter does. -/
theorem hit_sphere_exact_root (sqrt : K → K) (center : vec3 K) (radius : K) (r : ray K)
    (hs : IsSqrt sqrt) (hdir : r.direction ≠ ⟨0, 0, 0⟩)
    (hdisc : 0 ≤ dot (r.origin - center) r.direction * dot (r.origin - center) r.direction
      - r.direction.length_squared
        * ((r.origin - center).length_squared - radius * radius)) :
    (r.origin + hit_sphere sqrt center radius r • r.direction - center).length_squared
        = radius * radius ∧
      ∀ t, (r.origin + t • r.direction - center).length_squared = radius * radius →
        hit_sphere sqrt center radius r ≤ t := by
  have ha : 0 < r.direction.length_squared := length_squared_pos _ hdir
  obtain ⟨hs0, hs2⟩ := hs _ hdisc
  have hval : hit_sphere sqrt center radius r =
      (-dot (r.origin - center) r.direction
        - sqrt (dot (r.origin - center) r.direction * dot (r.origin - center) r.direction
          - r.direction.length_squared
            * ((r.origin - center).length_squared - radius * radius)))
        / r.direction.length_squared := by
    simp only [hit_sphere, if_neg (not_lt.mpr hdisc)]
  rw [hval]
  generalize hS : sqrt (dot (r.origin - center) r.direction
      * dot (r.origin - center) r.direction
    - r.direction.length_squared
      * ((r.origin - center).length_squared - radius * radius)) = s at hs0 hs2 ⊢
  generalize hA : r.direction.length_squared = a at ha hs2 ⊢
  generalize hB : dot (r.origin - center) r.direction = b at hs2 ⊢
  generalize hC : (r.origin - center).length_squared = c at hs2 ⊢
  have ha0 : a ≠ 0 := ha.ne.symm
  constructor
  · rw [ray_sphere_quadratic, hA, hB, hC]
    have ht0 : a * ((-b - s) / a) = -b - s := by field_simp
    have key : a * ((-b - s) / a * ((-b - s) / a) * a + 2 * ((-b - s) / a) * b + c
        - radius * radius) = 0 := by
      linear_combination (a * ((-b - s) / a) + (-b - s) + 2 * b) * ht0 + hs2
    rcases mul_eq_zero.mp key with h | h
    · exact absurd h ha0
    · linear_combination h
  · intro t ht
    rw [ray_sphere_quadratic, hA, hB, hC] at ht
    rw [div_le_iff₀ ha]
    have hsq : (t * a + b) * (t * a + b) = s * s := by
      linear_combination a * ht + (-1 : K) * hs2
    nlinarith [mul_self_nonneg (t * a + b + s), mul_self_nonneg (t * a + b - s)]

/-- C13 (as stated, refuted): for the sphere of radius 1 around the origin and the ray
from `(0,0,1e9)` along `(0,0,-1)`, `oc.length_squared() - radius*radius` rounds to
`1e18`, the discriminant is 0 and `hit_sphere` returns `1e9`, where the ray is at the
centre of the sphere: the returned value is not a root. The parameter `999999999`,
which is smaller, is a root. -/
theorem hit_sphere_rounding :
    hit_sphere binary64.sqrt (color 0 0 0) 1 ⟨color 0 0 1000000000, color 0 0 (-1), 0⟩
        = 1000000000 ∧
      ((color 0 0 1000000000 : vec3 binary64)
          + hit_sphere binary64.sqrt (color 0 0 0) 1
              ⟨color 0 0 1000000000, color 0 0 (-1), 0⟩ • color 0 0 (-1)
          - color 0 0 0).length_squared = 0 ∧
      (0 : binary64) ≠ 1 * 1 ∧
      ((color 0 0 1000000000 : vec3 binary64) + (999999999 : binary64) • color 0 0 (-1)
          - color 0 0 0).length_squared = 1 * 1 ∧
      (999999999 : binary64) < 1000000000 := by
  decide

/-- C13 (amended): for a ray with non-zero direction, `hit_sphere` returns `-1` when
the discriminant `half_b^2 - a*c` it computes is negative, and otherwise the value
`(-half_b - sqrt(discriminant))/a`, the smaller of the two candidates
`(-half_b -+ sqrt(discriminant))/a` for a root of `|o + t*d - center|^2 = r^2`; for the
sphere at the origin with radius `0.5` and the ray from `(0,0,3)` along `(0,0,-1)` it
returns `2.5`, in exact and in double arithmetic. -/
theorem hit_sphere_spec (sqrt : K → K) (center : vec3 K) (radius : K) (r : ray K)
    (hs : IsSqrt sqrt) (hdir : r.direction ≠ ⟨0, 0, 0⟩) :
    (dot (r.origin - center) r.direction * dot (r.origin - center) r.direction
          - r.direction.length_squared
            * ((r.origin - center).length_squared - radius * radius) < 0 →
        hit_sphere sqrt center radius r = -1) ∧
      (¬ (dot (r.origin - center) r.direction * dot (r.origin - center) r.direction
          - r.direction.length_squared
            * ((r.origin - center).length_squared - radius * radius) < 0) →
        hit_sphere sqrt center radius r =
            (-dot (r.origin - center) r.direction
              - sqrt (dot (r.origin - center) r.direction
                    * dot (r.origin - center) r.direction
                  - r.direction.length_squared
                    * ((r.origin - center).length_squared - radius * radius)))
              / r.direction.length_squared ∧
          hit_sphere sqrt center radius r ≤
            (-dot (r.origin - center) r.direction
              + sqrt (dot (r.origin - center) r.direction
                    * dot (r.origin - center) r.direction
                  - r.direction.length_squared
                    * ((r.origin - center).length_squared - radius * radius)))
              / r.direction.length_squared) ∧
      hit_sphere sqrt (color 0 0 0) (1 / 2) ⟨color 0 0 3, color 0 0 (-1), 0⟩ = 5 / 2 ∧
      hit_sphere binary64.sqrt (color 0 0 0) (1 / 2) ⟨color 0 0 3, color 0 0 (-1), 0⟩
        = 5 / 2 := by
  have ha : 0 < r.direction.length_squared := length_squared_pos _ hdir
  refine ⟨?_, ?_, ?_, by decide⟩
  · intro hneg
    simp only [hit_sphere, if_pos hneg]
  · intro hdisc
    obtain ⟨hs0, hs2⟩ := hs _ (not_lt.mp hdisc)
    have hval : hit_sphere sqrt center radius r =
        (-dot (r.origin - center) r.direction
          - sqrt (dot (r.origin - center) r.direction * dot (r.origin - center) r.direction
            - r.direction.length_squared
              * ((r.origin - center).length_squared - radius * radius)))
          / r.direction.length_squared := by
      simp only [hit_sphere, if_neg hdisc]
    refine ⟨hval, ?_⟩
    rw [hval]
    exact (div_le_div_iff_of_pos_right ha).mpr (by linarith)
  · have hq : sqrt ((1 / 2 : K) * (1 / 2)) = 1 / 2 := hs.sqrt_mul_self (by norm_num)
    simp only [hit_sphere, dot, vec3.length_squared, vec3.sub_x, vec3.sub_y, vec3.sub_z,
      color_x, color_y, color_z]
    norm_num
    rw [show (1 / 4 : K) = (1 / 2) * (1 / 2) by norm_num, hq]
    norm_num

/-- Instance of `hit_sphere_spec` over the reals: the ray from `(0,0,3)` along
`(0,0,-1)` meets the sphere of radius `1/2` around the origin at parameter `5/2`. -/
theorem hit_sphere_spec_witness :
    hit_sphere Real.sqrt (color 0 0 0) (1 / 2) ⟨color 0 0 3, color 0 0 (-1), 0⟩ = 5 / 2 :=
  (hit_sphere_spec Real.sqrt (color 0 0 0) (1 / 2) ⟨color 0 0 3, color 0 0 (-1), 0⟩
    isSqrt_real (by simp [color])).2.2.1

/-! ## Lambertian scatter direction -/

/-- A vector that is not near zero is not the zero vector. -/
theorem ne_zero_of_not_near_zero (v : vec3 K) (h : v.near_zero = false) :
    v ≠ ⟨0, 0, 0⟩ := by
  intro hv
  rw [hv] at h
  simp [vec3.near_zero, fabs_eq_abs] at h

/-- C15: the ray scattered by a lambertian starts at `rec.p` with the time of the
incoming ray; its direction is `rec.normal + w`, `w` being the drawn unit vector,
unless every component of `rec.normal + w` is below `1e-8` in absolute value, in which
case it is `rec.normal`; for a unit normal the scattered direction is never zero. -/
theorem lambertian_scatter_direction (rs : random_source K G) (self : lambertian K)
    (r_in : ray K) (rec : hit_record K) (g : G) :
    (self.scatter rs r_in rec g).1.scattered.origin = rec.p ∧
      (self.scatter rs r_in rec g).1.scattered.time = r_in.time ∧
      ((|(rec.normal + (rs.random_unit_vector g).1).x| < 1 / 100000000 ∧
          |(rec.normal + (rs.random_unit_vector g).1).y| < 1 / 100000000 ∧
          |(rec.normal + (rs.random_unit_vector g).1).z| < 1 / 100000000) →
        (self.scatter rs r_in rec g).1.scattered.direction = rec.normal) ∧
      (¬ (|(rec.normal + (rs.random_unit_vector g).1).x| < 1 / 100000000 ∧
          |(rec.normal + (rs.random_unit_vector g).1).y| < 1 / 100000000 ∧
          |(rec.normal + (rs.random_unit_vector g).1).z| < 1 / 100000000) →
        (self.scatter rs r_in rec g).1.scattered.direction
          = rec.normal + (rs.random_unit_vector g).1) ∧
      (dot rec.normal rec.normal = 1 →
        (self.scatter rs r_in rec g).1.scattered.direction ≠ ⟨0, 0, 0⟩) := by
  have hnz : (rec.normal + (rs.random_unit_vector g).1).near_zero = true ↔
      (|(rec.normal + (rs.random_unit_vector g).1).x| < 1 / 100000000 ∧
        |(rec.normal + (rs.random_unit_vector g).1).y| < 1 / 100000000 ∧
        |(rec.normal + (rs.random_unit_vector g).1).z| < 1 / 100000000) := by
    simp [vec3.near_zero, fabs_eq_abs, and_assoc]
  have hdir : (self.scatter rs r_in rec g).1.scattered.direction =
      if (rec.normal + (rs.random_unit_vector g).1).near_zero then rec.normal
      else rec.normal + (rs.random_unit_vector g).1 := rfl
  refine ⟨rfl, rfl, ?_, ?_, ?_⟩
  · intro h
    rw [hdir, if_pos (hnz.mpr h)]
  · intro h
    have h2 : ¬ (rec.normal + (rs.random_unit_vector g).1).near_zero = true :=
      fun hh => h (hnz.mp hh)
    rw [hdir, if_neg h2]
  · intro hn
    rw [hdir]
    split_ifs with h
    · intro h0
      rw [h0] at hn
      simp [dot] at hn
    · exact ne_zero_of_not_near_zero _ (by simpa using h)

/-! ## Mirror reflection -/

/-- The square root of a positive number is positive. -/
theorem IsSqrt.sqrt_pos {sqrt : K → K} (hs : IsSqrt sqrt) {x : K} (hx : 0 < x) :
    0 < sqrt x := by
  obtain ⟨h0, h1⟩ := hs x hx.le
  rcases h0.lt_or_eq with h | h
  · exact h
  · rw [← h] at h1
    simp at h1
    exact absurd h1.symm hx.ne.symm

/-- The dot product with a normalised vector. -/
theorem dot_unit_vector (sqrt : K → K) (d n : vec3 K) :
    dot (unit_vector sqrt d) n = dot d n / sqrt d.length_squared := by
  simp only [dot, unit_vector, vec3.div, vec3.length, vec3.smul_x, vec3.smul_y, vec3.smul_z]
  ring

/-- The dot product of a reflected vector with the normal. -/
theorem dot_reflect (v n : vec3 K) :
    dot (reflect v n) n = dot v n - 2 * dot v n * dot n n := by
  simp only [dot, reflect, vec3.sub_x, vec3.sub_y, vec3.sub_z, vec3.smul_x, vec3.smul_y,
    vec3.smul_z]
  ring

/-- C19: a metal with fuzz 0 never absorbs a ray that arrives against a unit normal:
`metal::scatter` returns true for every unit-ball sample, and the scattered direction
is `reflect(unit(d), n) = unit(d) - 2*dot(unit(d), n)*n`, whose dot product with `n` is
`-dot(unit(d), n) > 0`. -/
theorem metal_mirror_scatters (sqrt : K → K) (rs : random_source K G) (self : metal K)
    (r_in : ray K) (rec : hit_record K) (g : G)
    (hs : IsSqrt sqrt) (hf : self.fuzz = 0) (hn : dot rec.normal rec.normal = 1)
    (hd : dot r_in.direction rec.normal < 0) :
    (self.scatter sqrt rs r_in rec g).1.scattered_ok = true ∧
      (self.scatter sqrt rs r_in rec g).1.scattered.direction
        = reflect (unit_vector sqrt r_in.direction) rec.normal ∧
      reflect (unit_vector sqrt r_in.direction) rec.normal
        = unit_vector sqrt r_in.direction
          - (2 * dot (unit_vector sqrt r_in.direction) rec.normal) • rec.normal ∧
      dot (reflect (unit_vector sqrt r_in.direction) rec.normal) rec.normal
        = -dot (unit_vector sqrt r_in.direction) rec.normal ∧
      -dot (unit_vector sqrt r_in.direction) rec.normal > 0 := by
  have hne : r_in.direction ≠ ⟨0, 0, 0⟩ := by
    intro h0
    rw [h0] at hd
    simp [dot] at hd
  have hlen : 0 < sqrt r_in.direction.length_squared :=
    hs.sqrt_pos (length_squared_pos _ hne)
  have hu : dot (unit_vector sqrt r_in.direction) rec.normal < 0 := by
    rw [dot_unit_vector]
    exact div_neg_of_neg_of_pos hd hlen
  have hr : dot (reflect (unit_vector sqrt r_in.direction) rec.normal) rec.normal
      = -dot (unit_vector sqrt r_in.direction) rec.normal := by
    rw [dot_reflect, hn]; ring
  have hdir : (self.scatter sqrt rs r_in rec g).1.scattered.direction
      = reflect (unit_vector sqrt r_in.direction) rec.normal := by
    simp only [metal.scatter, hf]
    ext <;> simp
  refine ⟨?_, hdir, rfl, hr, by linarith⟩
  have hpos : dot (self.scatter sqrt rs r_in rec g).1.scattered.direction rec.normal > 0 := by
    rw [hdir, hr]; linarith
  have hok : (self.scatter sqrt rs r_in rec g).1.scattered_ok
      = decide (dot (self.scatter sqrt rs r_in rec g).1.scattered.direction rec.normal > 0) :=
    rfl
  rw [hok]
  exact decide_eq_true hpos

/-- Instance of `metal_mirror_scatters` over the reals: a mirror with normal `(0,1,0)`
hit by a ray along `(0,-2,0)` scatters the ray. -/
theorem metal_mirror_scatters_witness :
    (metal.scatter Real.sqrt (counting_source 0 (color (1 / 2) 0 0) (color 0 0 0))
        ⟨color 1 1 1, 0⟩ ⟨color 0 2 0, color 0 (-2) 0, 0⟩
        ⟨color 0 0 0, color 0 1 0, .metal ⟨color 1 1 1, 0⟩, 2, true⟩ 0).1.scattered_ok
      = true :=
  (metal_mirror_scatters Real.sqrt _ ⟨color 1 1 1, 0⟩ ⟨color 0 2 0, color 0 (-2) 0, 0⟩
    ⟨color 0 0 0, color 0 1 0, .metal ⟨color 1 1 1, 0⟩, 2, true⟩ 0
    isSqrt_real rfl (by simp [dot]) (by simp [dot])).1

/-! ## The reflect-or-refract choice of a dielectric -/

/-- The direction chosen by `dielectric::scatter`, as one conditional. -/
theorem dielectric_scatter_direction_eq (sqrt : K → K) (rs : random_source K G)
    (self : dielectric K) (r_in : ray K) (rec : hit_record K) (g : G) :
    (self.scatter sqrt rs r_in rec g).1.scattered.direction =
      if (if rec.front_face = true then 1 / self.ir else self.ir)
            * sqrt (1 - min (dot (-unit_vector sqrt r_in.direction) rec.normal) 1
              * min (dot (-unit_vector sqrt r_in.direction) rec.normal) 1) > 1 ∨
          dielectric.reflectance (min (dot (-unit_vector sqrt r_in.direction) rec.normal) 1)
            (if rec.front_face = true then 1 / self.ir else self.ir)
            > (rs.random_double g).1 then
        reflect (unit_vector sqrt r_in.direction) rec.normal
      else
        refract sqrt (unit_vector sqrt r_in.direction) rec.normal
          (if rec.front_face = true then 1 / self.ir else self.ir) := by
  unfold dielectric.scatter
  simp only
  by_cases h1 : (if rec.front_face = true then 1 / self.ir else self.ir)
      * sqrt (1 - min (dot (-unit_vector sqrt r_in.direction) rec.normal) 1
        * min (dot (-unit_vector sqrt r_in.direction) rec.normal) 1) > 1
  · rw [if_pos (by simpa using h1), if_pos (Or.inl h1)]
  · rw [if_neg (by simpa using h1)]
    by_cases h2 : dielectric.reflectance
        (min (dot (-unit_vector sqrt r_in.direction) rec.normal) 1)
        (if rec.front_face = true then 1 / self.ir else self.ir) > (rs.random_double g).1
    · rw [if_pos h2, if_pos (Or.inr h2)]
    · rw [if_neg h2, if_neg (not_or.mpr ⟨h1, h2⟩)]

/-- The Cauchy-Schwarz inequality for `dot`. -/
theorem dot_mul_self_le (u n : vec3 K) : dot u n * dot u n ≤ dot u u * dot n n := by
  simp only [dot]
  nlinarith [mul_self_nonneg (u.x * n.y - u.y * n.x), mul_self_nonneg (u.x * n.z - u.z * n.x),
    mul_self_nonneg (u.y * n.z - u.z * n.y)]

/-- For a non-negative ratio the Schlick reflectance is at least one at a non-positive
cosine. -/
theorem reflectance_ge_one (c ratio : K) (hr : 0 ≤ ratio) (hc : c ≤ 0) :
    1 ≤ dielectric.reflectance c ratio := by
  have hpos : (0 : K) < 1 + ratio := by linarith
  have hq1 : (1 - ratio) / (1 + ratio) ≤ 1 := by
    rw [div_le_one hpos]; linarith
  have hq2 : -1 ≤ (1 - ratio) / (1 + ratio) := by
    rw [le_div_iff₀ hpos]; linarith
  have hr0 : (1 - ratio) / (1 + ratio) * ((1 - ratio) / (1 + ratio)) ≤ 1 := by
    nlinarith
  have hp : (1 : K) ≤ (1 - c) ^ 5 := one_le_pow₀ (by linarith)
  simp only [dielectric.reflectance]
  nlinarith

/-- The dot product with a unit normal of a vector split into a part built from
`u + c*n` and a part along the normal. -/
theorem dot_perp_parallel (u n : vec3 K) (ratio c s : K) (hn : dot n n = 1) :
    dot (ratio • (u + c • n) + (-s) • n) n = ratio * (dot u n + c) - s := by
  simp only [dot, vec3.add_x, vec3.add_y, vec3.add_z, vec3.smul_x, vec3.smul_y,
    vec3.smul_z] at hn ⊢
  linear_combination (ratio * c - s) * hn

/-- The dot product of a refracted vector with a unit normal. -/
theorem dot_refract (sqrt : K → K) (u n : vec3 K) (ratio : K) (hn : dot n n = 1) :
    dot (refract sqrt u n ratio) n =
      ratio * (dot u n + min (dot (-u) n) 1)
        - sqrt (fabs (1 - (ratio • (u + min (dot (-u) n) 1 • n)).length_squared)) :=
  dot_perp_parallel u n ratio _ _ hn

/-- The dot product is odd in its first argument. -/
theorem dot_neg_left (u n : vec3 K) : dot (-u) n = -dot u n := by
  simp only [dot, vec3.neg_x, vec3.neg_y, vec3.neg_z]
  ring

/-- When the refracted vector (perpendicular part from `u + c*n`, parallel part `-s*n`)
coincides with the reflected one, the Schlick reflectance exceeds every number below
one, provided the ratio is non-negative or the unit vector `u` arrives against the
normal. -/
theorem reflectance_gt_of_coincide (u n : vec3 K) (ratio c s x : K)
    (hn : dot n n = 1) (hc : c = min (dot (-u) n) 1) (hs0 : 0 ≤ s) (hx : x < 1)
    (hcase : 0 ≤ ratio ∨ (dot u u = 1 ∧ dot u n ≤ 0))
    (heq : ratio • (u + c • n) + (-s) • n = reflect u n) :
    dielectric.reflectance c ratio > x := by
  have h1 := dot_perp_parallel u n ratio c s hn
  rw [heq, dot_reflect, hn] at h1
  rw [dot_neg_left] at hc
  have hcle : c ≤ -dot u n := hc ▸ min_le_left _ _
  rcases hcase with hr | ⟨huu, hor⟩
  · have h2 : ratio * (dot u n + c) ≤ 0 :=
      mul_nonpos_of_nonneg_of_nonpos hr (by linarith)
    have hc0 : c ≤ 0 := by linarith
    have := reflectance_ge_one c ratio hr hc0
    exact lt_of_lt_of_le hx this
  · have hcs := dot_mul_self_le u n
    rw [huu, hn] at hcs
    have hle : -dot u n ≤ 1 := by nlinarith
    have hc1 : c = -dot u n := by rw [hc]; exact min_eq_left hle
    have hun : dot u n = 0 := by
      rw [hc1] at h1
      linarith
    have hs1 : s = 0 := by
      rw [hc1, hun] at h1
      linarith
    have hc2 : c = 0 := by rw [hc1, hun]; simp
    have hx1 : ratio * (u.x + c * n.x) + -s * n.x = u.x - 2 * dot u n * n.x :=
      congrArg vec3.x heq
    have hy1 : ratio * (u.y + c * n.y) + -s * n.y = u.y - 2 * dot u n * n.y :=
      congrArg vec3.y heq
    have hz1 : ratio * (u.z + c * n.z) + -s * n.z = u.z - 2 * dot u n * n.z :=
      congrArg vec3.z heq
    rw [hc2, hs1, hun] at hx1 hy1 hz1
    have hratio : ratio = 1 := by
      simp only [dot] at huu
      have : ratio * (u.x * u.x + u.y * u.y + u.z * u.z)
          = u.x * u.x + u.y * u.y + u.z * u.z := by
        linear_combination u.x * hx1 + u.y * hy1 + u.z * hz1
      rw [huu] at this
      linarith
    rw [hc2, hratio]
    simp only [dielectric.reflectance]
    norm_num
    exact hx

/-- A normalised non-zero vector has squared length one. -/
theorem unit_vector_length_squared {sqrt : K → K} (hs : IsSqrt sqrt) (d : vec3 K)
    (hd : d ≠ ⟨0, 0, 0⟩) : (unit_vector sqrt d).length_squared = 1 := by
  have hpos := length_squared_pos d hd
  obtain ⟨h0, h1⟩ := hs _ hpos.le
  have hL : sqrt d.length_squared ≠ 0 := (hs.sqrt_pos hpos).ne.symm
  have hval : (unit_vector sqrt d).length_squared
      = d.length_squared / (sqrt d.length_squared * sqrt d.length_squared) := by
    simp only [unit_vector, vec3.div, vec3.length, vec3.length_squared, vec3.smul_x,
      vec3.smul_y, vec3.smul_z]
    field_simp
  rw [hval, h1, div_self hpos.ne.symm]

/-- C20: for a dielectric with `ir >= 1`, a front-face hit with unit normal and an
incoming ray with non-zero direction: `1 - cos_theta^2` is non-negative and
`refraction_ratio*sin_theta <= 1`, so `cannot_refract` is false, a uniform number `x`
is drawn, and `dielectric::scatter` reflects when `reflectance(cos_theta, 1/ir) > x`
and refracts otherwise; for a draw `x < 1` the direction is the reflected one if and
only if the reflectance exceeds `x`. -/
theorem dielectric_dense_medium (sqrt : K → K) (rs : random_source K G)
    (self : dielectric K) (r_in : ray K) (rec : hit_record K) (g : G)
    (cos_theta sin_theta x : K)
    (hs : IsSqrt sqrt) (hir : 1 ≤ self.ir) (hff : rec.front_face = true)
    (hn : dot rec.normal rec.normal = 1) (hd : r_in.direction ≠ ⟨0, 0, 0⟩)
    (hcos : cos_theta = min (dot (-unit_vector sqrt r_in.direction) rec.normal) 1)
    (hsin : sin_theta = sqrt (1 - cos_theta * cos_theta))
    (hx : x = (rs.random_double g).1) :
    0 ≤ 1 - cos_theta * cos_theta ∧
      1 / self.ir * sin_theta ≤ 1 ∧
      ¬ (1 / self.ir * sin_theta > 1) ∧
      (self.scatter sqrt rs r_in rec g).2 = (rs.random_double g).2 ∧
      (dielectric.reflectance cos_theta (1 / self.ir) > x →
        (self.scatter sqrt rs r_in rec g).1.scattered.direction
          = reflect (unit_vector sqrt r_in.direction) rec.normal) ∧
      (¬ dielectric.reflectance cos_theta (1 / self.ir) > x →
        (self.scatter sqrt rs r_in rec g).1.scattered.direction
          = refract sqrt (unit_vector sqrt r_in.direction) rec.normal (1 / self.ir)) ∧
      (x < 1 →
        ((self.scatter sqrt rs r_in rec g).1.scattered.direction
            = reflect (unit_vector sqrt r_in.direction) rec.normal ↔
          dielectric.reflectance cos_theta (1 / self.ir) > x)) := by
  have hU := unit_vector_length_squared hs r_in.direction hd
  have hcs := dot_mul_self_le (unit_vector sqrt r_in.direction) rec.normal
  have hUU : dot (unit_vector sqrt r_in.direction) (unit_vector sqrt r_in.direction) = 1 := hU
  rw [hUU, hn] at hcs
  rw [dot_neg_left] at hcos
  have hle : -dot (unit_vector sqrt r_in.direction) rec.normal ≤ 1 := by nlinarith
  have hc1 : cos_theta = -dot (unit_vector sqrt r_in.direction) rec.normal := by
    rw [hcos]; exact min_eq_left hle
  have hsq : 0 ≤ 1 - cos_theta * cos_theta := by
    rw [hc1]; nlinarith
  obtain ⟨hs0, hs2⟩ := hs _ hsq
  rw [← hsin] at hs0 hs2
  have hsin1 : sin_theta ≤ 1 := by nlinarith [mul_self_nonneg cos_theta]
  have hirpos : 0 < self.ir := by linarith
  have hratio0 : 0 ≤ 1 / self.ir := div_nonneg zero_le_one hirpos.le
  have hratio1 : 1 / self.ir ≤ 1 := by
    rw [div_le_one hirpos]; exact hir
  have hprod : 1 / self.ir * sin_theta ≤ 1 := by nlinarith
  have hnot : ¬ (1 / self.ir * sin_theta > 1) := not_lt.mpr hprod
  have hdir := dielectric_scatter_direction_eq sqrt rs self r_in rec g
  rw [dot_neg_left, ← hcos, ← hsin, ← hx] at hdir
  simp only [hff, if_true] at hdir
  have hyes : dielectric.reflectance cos_theta (1 / self.ir) > x →
      (self.scatter sqrt rs r_in rec g).1.scattered.direction
        = reflect (unit_vector sqrt r_in.direction) rec.normal := by
    intro h
    rw [hdir, if_pos (Or.inr h)]
  have hno : ¬ dielectric.reflectance cos_theta (1 / self.ir) > x →
      (self.scatter sqrt rs r_in rec g).1.scattered.direction
        = refract sqrt (unit_vector sqrt r_in.direction) rec.normal (1 / self.ir) := by
    intro h
    rw [hdir, if_neg (not_or.mpr ⟨hnot, h⟩)]
  refine ⟨hsq, hprod, hnot, ?_, hyes, hno, ?_⟩
  · unfold dielectric.scatter
    simp only [hff, if_true, dot_neg_left, ← hcos, ← hsin]
    rw [if_neg (by simpa using hprod)]
    split_ifs <;> rfl
  · intro hx1
    refine ⟨?_, hyes⟩
    intro hrefl
    by_contra hcond
    have heq : refract sqrt (unit_vector sqrt r_in.direction) rec.normal (1 / self.ir)
        = reflect (unit_vector sqrt r_in.direction) rec.normal := by
      rw [← hno hcond, hrefl]
    have hgt := reflectance_gt_of_coincide (unit_vector sqrt r_in.direction) rec.normal
      (1 / self.ir) (min (dot (-unit_vector sqrt r_in.direction) rec.normal) 1) _ x hn rfl
      (hs _ (fabs_nonneg _)).1 hx1 (Or.inl hratio0) heq
    rw [dot_neg_left, ← hcos] at hgt
    exact hcond hgt

/-- Instance of `dielectric_dense_medium` over the reals: glass (`ir = 3/2`) hit on a
front face with normal `(0,1,0)` by a ray along `(0,-2,0)` draws its uniform number,
so it did not take the total-reflection branch. -/
theorem dielectric_dense_medium_witness :
    (dielectric.scatter Real.sqrt (counting_source (1 / 2) (color 0 0 0) (color 0 0 0))
        ⟨3 / 2⟩ ⟨color 0 2 0, color 0 (-2) 0, 0⟩
        ⟨color 0 1 0, color 0 1 0, .dielectric ⟨3 / 2⟩, 1, true⟩ 0).2
      = ((counting_source (1 / 2 : ℝ) (color 0 0 0) (color 0 0 0)).random_double 0).2 :=
  (dielectric_dense_medium Real.sqrt
    (counting_source (1 / 2) (color 0 0 0) (color 0 0 0)) ⟨3 / 2⟩
    ⟨color 0 2 0, color 0 (-2) 0, 0⟩
    ⟨color 0 1 0, color 0 1 0, .dielectric ⟨3 / 2⟩, 1, true⟩ 0 _ _ _
    isSqrt_real (by norm_num) rfl (by simp [dot]) (by simp [color]) rfl rfl rfl).2.2.2.1

/-! ## The engine -/

section engine_lemmas

variable [FloorRing K]

/-- The height of the rendered image is 266. -/
theorem image_height_eq : image_height K = 266 := by
  have h0 : (0 : K) ≤ ((image_width : Int) : K) / aspect_ratio K := by
    simp only [image_width, aspect_ratio]; norm_num
  simp only [image_height, static_cast_int, if_pos h0]
  rw [Int.floor_eq_iff]
  simp only [image_width, aspect_ratio]
  constructor <;> norm_num

/-- A left fold whose step adds `k` entries to the buffer adds `k` entries per element
of the list. -/
theorem foldl_buffer_length {α : Type} (f : List Nat × G → α → List Nat × G) (k : Nat)
    (hf : ∀ a x, (f a x).1.length = a.1.length + k) (l : List α) (acc : List Nat × G) :
    (l.foldl f acc).1.length = acc.1.length + k * l.length := by
  induction l generalizing acc with
  | nil => simp
  | cons x xs ih =>
    rw [List.foldl_cons, ih, hf, List.length_cons]
    ring

/-- The function `write_color` appends four bytes. -/
theorem write_color_length (sqrt : K → K) (pixels : List Nat) (c : vec3 K) (n : Int) :
    (write_color sqrt pixels c n).length = pixels.length + 4 := by
  simp [write_color]

/-- Rendering one pixel appends four bytes. -/
theorem render_pixel_length (sqrt : K → K) (rs : random_source K G) (cam : camera K G)
    (world : hittable K G) (i j : Int) (acc : List Nat × G) :
    (render_pixel sqrt rs cam world i j acc).1.length = acc.1.length + 4 := by
  simp only [render_pixel]
  exact write_color_length sqrt _ _ _

/-- Rendering one row appends the bytes of 400 pixels. -/
theorem render_row_length (sqrt : K → K) (rs : random_source K G) (cam : camera K G)
    (world : hittable K G) (j : Int) (acc : List Nat × G) :
    (render_row sqrt rs cam world j acc).1.length = acc.1.length + 1600 := by
  simp only [render_row]
  rw [foldl_buffer_length _ 4 (fun a x => render_pixel_length sqrt rs cam world _ j a),
    List.length_range]
  rfl

/-- The render loop appends the bytes of 400 x 266 pixels. -/
theorem render_rows_length (sqrt : K → K) (rs : random_source K G) (cam : camera K G)
    (world : hittable K G) (acc : List Nat × G) :
    (render_rows sqrt rs cam world acc).1.length = acc.1.length + 425600 := by
  simp only [render_rows]
  rw [foldl_buffer_length _ 1600 (fun a x => render_row_length sqrt rs cam world _ a),
    List.length_reverse, List.length_range, image_height_eq]
  rfl

/-- What `Engine::createImage` leaves behind when `changed` is set: the buffer written
by the render loop, and the flag cleared. -/
theorem createImage_of_changed (sqrt : K → K) (rs : random_source K G)
    (random_scene : G → hittable K G × G) (cam : camera K G) (self : Engine) (g : G)
    (hc : self.changed = true) :
    (self.createImage sqrt rs random_scene cam g).1 =
      ⟨self.texture, self.img_width, self.img_height,
        (render_rows sqrt rs cam (random_scene g).1 ([], (random_scene g).2)).1, false⟩ := by
  simp only [Engine.createImage, hc, if_true]

/-- What `Engine::createImage` leaves behind when `changed` is clear: the engine as it
was. -/
theorem createImage_of_not_changed (sqrt : K → K) (rs : random_source K G)
    (random_scene : G → hittable K G × G) (cam : camera K G) (self : Engine) (g : G)
    (hc : self.changed = false) :
    (self.createImage sqrt rs random_scene cam g).1 = self := by
  simp [Engine.createImage, hc]

/-- After `renderImage()` on an engine whose flag `changed` is set, the size is as
before, the buffer and the data handed to the texture hold 425600 bytes, and the flag
is clear. -/
theorem renderImage_of_changed (sqrt : K → K) (rs : random_source K G)
    (random_scene : G → hittable K G × G) (cam : camera K G) (e : Engine) (g : G)
    (hc : e.changed = true) :
    (e.renderImage sqrt rs random_scene cam g).1.img_width = e.img_width ∧
      (e.renderImage sqrt rs random_scene cam g).1.img_height = e.img_height ∧
      (e.renderImage sqrt rs random_scene cam g).1.pixels.length = 425600 ∧
      (e.renderImage sqrt rs random_scene cam g).1.texture.data.length = 425600 ∧
      (e.renderImage sqrt rs random_scene cam g).1.changed = false := by
  have h := createImage_of_changed sqrt rs random_scene cam e g hc
  have hlen := render_rows_length sqrt rs cam (random_scene g).1 ([], (random_scene g).2)
  simp only [List.length_nil, zero_add] at hlen
  simp only [Engine.renderImage]
  rw [h]
  exact ⟨rfl, rfl, hlen, hlen, rfl⟩

/-- After `renderImage(new_img_width, new_img_height)` on an engine whose flag `changed`
is set, the engine has the requested size and a buffer of 425600 bytes. -/
theorem renderImage_size_of_changed (sqrt : K → K) (rs : random_source K G)
    (random_scene : G → hittable K G × G) (cam : camera K G) (self : Engine)
    (new_img_width new_img_height : Int) (g : G) (hc : self.changed = true) :
    (self.renderImage_size sqrt rs random_scene cam new_img_width new_img_height g).1.img_width
        = new_img_width ∧
      (self.renderImage_size sqrt rs random_scene cam new_img_width new_img_height
        g).1.img_height = new_img_height ∧
      (self.renderImage_size sqrt rs random_scene cam new_img_width new_img_height
        g).1.pixels.length = 425600 ∧
      (self.renderImage_size sqrt rs random_scene cam new_img_width new_img_height
        g).1.texture.data.length = 425600 ∧
      (self.renderImage_size sqrt rs random_scene cam new_img_width new_img_height
        g).1.changed = false := by
  simp only [Engine.renderImage_size]
  split_ifs with h
  · exact renderImage_of_changed sqrt rs random_scene cam _ g hc
  · have h2 : self.img_height = new_img_height ∧ self.img_width = new_img_width := by
      constructor <;> by_contra hne <;> exact h (by tauto)
    have := renderImage_of_changed sqrt rs random_scene cam self g hc
    rw [h2.1, h2.2] at this
    exact this

end engine_lemmas

/-- C12 (the code at the failing input): an engine of size 400 x 266 whose flag
`changed` is set is asked to render at 800 x 600; afterwards `img_width` is 800 and
`img_height` is 600, yet `pixels` (the buffer handed to the texture) holds 425600
bytes, not `800*600*4 = 1920000`. -/
theorem renderImage_size_buffer_mismatch :
    (Engine.renderImage_size Real.sqrt (counting_source 0 (color 0 0 0) (color 0 1 0))
        sample_scene sample_camera (Engine.new ⟨0, 0, []⟩ 400 266 true) 800 600 0).1.img_width
      = 800 ∧
    (Engine.renderImage_size Real.sqrt (counting_source 0 (color 0 0 0) (color 0 1 0))
        sample_scene sample_camera (Engine.new ⟨0, 0, []⟩ 400 266 true) 800 600 0).1.img_height
      = 600 ∧
    (Engine.renderImage_size Real.sqrt (counting_source 0 (color 0 0 0) (color 0 1 0))
        sample_scene sample_camera (Engine.new ⟨0, 0, []⟩ 400 266 true) 800 600
        0).1.pixels.length = 425600 ∧
    (Engine.renderImage_size Real.sqrt (counting_source 0 (color 0 0 0) (color 0 1 0))
        sample_scene sample_camera (Engine.new ⟨0, 0, []⟩ 400 266 true) 800 600
        0).1.texture.data.length = 425600 ∧
    (425600 : Int) ≠ 800 * 600 * 4 := by
  have h := renderImage_size_of_changed Real.sqrt
    (counting_source (0 : ℝ) (color 0 0 0) (color 0 1 0)) sample_scene sample_camera
    (Engine.new ⟨0, 0, []⟩ 400 266 true) 800 600 0 rfl
  exact ⟨h.1, h.2.1, h.2.2.1, h.2.2.2.1, by norm_num⟩

section engine_claims

variable [FloorRing K]

/-- The coordinates computed by `sample_uv`, written out. -/
theorem sample_uv_eq (rs : random_source K G) (i j : Int) (g : G) :
    (sample_uv rs i j g).1 =
      (((i : K) + (rs.random_double g).1) / 399,
        ((j : K) + (rs.random_double (rs.random_double g).2).1) / 265) := by
  simp only [sample_uv, image_height_eq, image_width]
  norm_num

/-- C16 (as stated, refuted): in the last column `i = 399` and the last row `j = 265`,
with both jitter draws equal to `1/2`, the coordinates passed to `cam.get_ray` are
`799/798` and `531/530`, both above 1. -/
theorem sample_uv_exceeds_one :
    (399 : Int) ≤ image_width - 1 ∧ (265 : Int) ≤ image_height ℚ - 1 ∧
      (0 : ℚ) ≤ 1 / 2 ∧ (1 / 2 : ℚ) < 1 ∧
      (sample_uv (counting_source (1 / 2 : ℚ) (color 0 0 0) (color 0 0 0)) 399 265 0).1
        = (799 / 798, 531 / 530) ∧
      1 < (sample_uv (counting_source (1 / 2 : ℚ) (color 0 0 0) (color 0 0 0)) 399 265 0).1.1 ∧
      1 < (sample_uv (counting_source (1 / 2 : ℚ) (color 0 0 0) (color 0 0 0)) 399 265 0).1.2 := by
  have h := sample_uv_eq (counting_source (1 / 2 : ℚ) (color 0 0 0) (color 0 0 0)) 399 265 0
  have h2 : (sample_uv (counting_source (1 / 2 : ℚ) (color 0 0 0) (color 0 0 0)) 399 265 0).1
      = (799 / 798, 531 / 530) := by
    rw [h]
    simp only [counting_source]
    norm_num
  refine ⟨by simp [image_width], by simp [image_height_eq], by norm_num, by norm_num, h2, ?_, ?_⟩
  · rw [h2]; norm_num
  · rw [h2]; norm_num

/-- C16 (amended): for every column `i` in `0..399`, every row `j` in `0..265` and every
pair of jitter draws in `[0,1)`, the coordinates `u = (i + draw)/399` and
`v = (j + draw')/265` passed to `cam.get_ray` satisfy `0 <= u <= 400/399` and
`0 <= v <= 266/265`, with `u <= 1` in every column but the last and `v <= 1` in every
row but the last. -/
theorem sample_uv_range (rs : random_source K G) (i j : Int) (g : G)
    (hi0 : 0 ≤ i) (hi1 : i ≤ image_width - 1) (hj0 : 0 ≤ j) (hj1 : j ≤ image_height K - 1)
    (hd1 : 0 ≤ (rs.random_double g).1 ∧ (rs.random_double g).1 < 1)
    (hd2 : 0 ≤ (rs.random_double (rs.random_double g).2).1 ∧
      (rs.random_double (rs.random_double g).2).1 < 1) :
    (sample_uv rs i j g).1 =
        (((i : K) + (rs.random_double g).1) / ((image_width - 1 : Int) : K),
          ((j : K) + (rs.random_double (rs.random_double g).2).1)
            / ((image_height K - 1 : Int) : K)) ∧
      (0 ≤ (sample_uv rs i j g).1.1 ∧ (sample_uv rs i j g).1.1 ≤ 400 / 399) ∧
      (0 ≤ (sample_uv rs i j g).1.2 ∧ (sample_uv rs i j g).1.2 ≤ 266 / 265) ∧
      (i < image_width - 1 → (sample_uv rs i j g).1.1 ≤ 1) ∧
      (j < image_height K - 1 → (sample_uv rs i j g).1.2 ≤ 1) := by
  rw [image_height_eq] at hj1 ⊢
  simp only [image_width] at hi1 ⊢
  have hi0K : (0 : K) ≤ (i : K) := by exact_mod_cast hi0
  have hi1K : (i : K) ≤ 399 := by exact_mod_cast hi1
  have hj0K : (0 : K) ≤ (j : K) := by exact_mod_cast hj0
  have hj1K : (j : K) ≤ 265 := by exact_mod_cast hj1
  rw [sample_uv_eq]
  simp only
  refine ⟨by norm_num, ⟨?_, ?_⟩, ⟨?_, ?_⟩, ?_, ?_⟩
  · apply div_nonneg <;> linarith
  · rw [div_le_div_iff₀ (by norm_num) (by norm_num)]; linarith
  · apply div_nonneg <;> linarith
  · rw [div_le_div_iff₀ (by norm_num) (by norm_num)]; linarith
  · intro hlt
    have h2 : i ≤ 398 := by omega
    have h2K : (i : K) ≤ 398 := by exact_mod_cast h2
    rw [div_le_one (by norm_num)]; linarith
  · intro hlt
    have h2 : j ≤ 264 := by omega
    have h2K : (j : K) ≤ 264 := by exact_mod_cast h2
    rw [div_le_one (by norm_num)]; linarith

end engine_claims

/-- Instance of `sample_uv_range`: in the last column and the last row with both draws
`1/2`, the first coordinate lies between 0 and `400/399`. -/
theorem sample_uv_range_witness :
    0 ≤ (sample_uv (counting_source (1 / 2 : ℚ) (color 0 0 0) (color 0 0 0)) 399 265 0).1.1 ∧
      (sample_uv (counting_source (1 / 2 : ℚ) (color 0 0 0) (color 0 0 0)) 399 265 0).1.1
        ≤ 400 / 399 :=
  (sample_uv_range (counting_source (1 / 2 : ℚ) (color 0 0 0) (color 0 0 0)) 399 265 0
    (by norm_num) (by simp [image_width]) (by norm_num) (by simp [image_height_eq])
    (by simp [counting_source]; norm_num)
    (by simp [counting_source]; norm_num)).2.1

/-- C17 (as stated, refuted): an engine of size 1 x 1 whose flag `changed` is clear
and whose buffer holds the bytes `9,9,9,9` is asked to render at 2 x 1; afterwards the
flag is still clear and the buffer is the old one padded with zeros to 8 bytes: the
size change did not set the flag and no frame was computed. -/
theorem renderImage_size_keeps_flag_clear :
    ((1 : Int), (1 : Int)) ≠ (2, 1) ∧
      (Engine.renderImage_size Real.sqrt (counting_source 0 (color 0 0 0) (color 0 1 0))
          sample_scene sample_camera ⟨⟨1, 1, [9, 9, 9, 9]⟩, 1, 1, [9, 9, 9, 9], false⟩ 2 1
          0).1.changed = false ∧
      (Engine.renderImage_size Real.sqrt (counting_source 0 (color 0 0 0) (color 0 1 0))
          sample_scene sample_camera ⟨⟨1, 1, [9, 9, 9, 9]⟩, 1, 1, [9, 9, 9, 9], false⟩ 2 1
          0).1.pixels = [9, 9, 9, 9, 0, 0, 0, 0] := by
  refine ⟨by decide, ?_, ?_⟩
  · simp [Engine.renderImage_size, Engine.renderImage, Engine.createImage]
  · simp [Engine.renderImage_size, Engine.renderImage, Engine.createImage, vector_resize]

section engine_flag

variable [FloorRing K]

/-- C17 (amended): `renderImage(new_w, new_h)`, for non-negative sizes whose byte count
fits an `int`, never sets the flag `changed`; a size change only resizes the buffer. The render loop of `createImage` runs exactly when the
flag was set on entry: then the buffer is the freshly rendered frame; when the flag was
clear the buffer is the old one, resized if the size differs. After `createImage`, and
after `renderImage(new_w, new_h)`, the flag is false. -/
theorem renderImage_size_flag (sqrt : K → K) (rs : random_source K G)
    (random_scene : G → hittable K G × G) (cam : camera K G) (self : Engine)
    (new_img_width new_img_height : Int) (g : G)
    (hw : 0 ≤ new_img_width) (hh : 0 ≤ new_img_height)
    (hfit : new_img_height * new_img_width * 4 < 2 ^ 31) :
    (self.createImage sqrt rs random_scene cam g).1.changed = false ∧
      (self.renderImage_size sqrt rs random_scene cam new_img_width new_img_height
        g).1.changed = false ∧
      (self.changed = true →
        (self.renderImage_size sqrt rs random_scene cam new_img_width new_img_height
          g).1.pixels
          = (render_rows sqrt rs cam (random_scene g).1 ([], (random_scene g).2)).1) ∧
      (self.changed = false →
        (self.renderImage_size sqrt rs random_scene cam new_img_width new_img_height
          g).1.pixels
          = if self.img_height ≠ new_img_height ∨ self.img_width ≠ new_img_width then
              vector_resize self.pixels (new_img_height * new_img_width * 4).toNat
            else self.pixels) := by
  have hflag : ∀ e : Engine, (e.createImage sqrt rs random_scene cam g).1.changed = false := by
    intro e
    cases hc : e.changed with
    | true => rw [createImage_of_changed _ _ _ _ _ _ hc]
    | false => rw [createImage_of_not_changed _ _ _ _ _ _ hc]; exact hc
  refine ⟨hflag self, ?_, ?_, ?_⟩
  · simp only [Engine.renderImage_size, Engine.renderImage]
    exact hflag _
  · intro hc
    simp only [Engine.renderImage_size, Engine.renderImage]
    split_ifs with h
    · rw [createImage_of_changed _ _ _ _ _ _ (show (Engine.mk self.texture new_img_width
        new_img_height (vector_resize self.pixels (new_img_height * new_img_width * 4).toNat)
        self.changed).changed = true from hc)]
    · rw [createImage_of_changed _ _ _ _ _ _ hc]
  · intro hc
    simp only [Engine.renderImage_size, Engine.renderImage]
    split_ifs with h
    · rw [createImage_of_not_changed _ _ _ _ _ _ (show (Engine.mk self.texture new_img_width
        new_img_height (vector_resize self.pixels (new_img_height * new_img_width * 4).toNat)
        self.changed).changed = false from hc)]
    · rw [createImage_of_not_changed _ _ _ _ _ _ hc]

end engine_flag

/-- Instance of `renderImage_size_flag`: with the flag set on entry the buffer is the
frame written by the render loop. -/
theorem renderImage_size_flag_witness :
    (Engine.renderImage_size Real.sqrt (counting_source 0 (color 0 0 0) (color 0 1 0))
        sample_scene sample_camera ⟨⟨1, 1, [9, 9, 9, 9]⟩, 1, 1, [9, 9, 9, 9], true⟩ 2 1
        0).1.pixels
      = (render_rows Real.sqrt (counting_source 0 (color 0 0 0) (color 0 1 0)) sample_camera
          (sample_scene 0 : hittable ℝ Nat × Nat).1
          ([], (sample_scene 0 : hittable ℝ Nat × Nat).2)).1 :=
  (renderImage_size_flag Real.sqrt (counting_source 0 (color 0 0 0) (color 0 1 0))
    sample_scene sample_camera ⟨⟨1, 1, [9, 9, 9, 9]⟩, 1, 1, [9, 9, 9, 9], true⟩ 2 1
    0 (by norm_num) (by norm_num) (by norm_num)).2.2.1 rfl

/-! ## Bounded radiance -/

/-- Instance of `lambertian_scatter_direction`: with the unit normal `(0,0,1)` and the
drawn unit vector `(0,0,-1)` the sum vanishes, and the scattered direction is not the
zero vector. -/
theorem lambertian_scatter_direction_witness :
    (lambertian.scatter (counting_source (0 : ℚ) (color 0 0 0) (color 0 0 (-1)))
        ⟨color 1 1 1⟩ ⟨color 0 0 0, color 0 0 (-1), 0⟩
        ⟨color 0 0 (-1), color 0 0 1, .lambertian ⟨color 1 1 1⟩, 1, true⟩ 0).1.scattered.direction
      ≠ ⟨0, 0, 0⟩ :=
  (lambertian_scatter_direction (counting_source (0 : ℚ) (color 0 0 0) (color 0 0 (-1)))
    ⟨color 1 1 1⟩ ⟨color 0 0 0, color 0 0 (-1), 0⟩
    ⟨color 0 0 (-1), color 0 0 1, .lambertian ⟨color 1 1 1⟩, 1, true⟩ 0).2.2.2.2
    (by simp [dot, color])

end RayTracing
